import Mathlib

/-!
Verification development for the mind-rune game server core.

The Python sources under backend/ are shallowly embedded here:
- association lists model Python dicts (insertion keeps position on
  re-assignment, as CPython dicts do);
- byte strings are lists of naturals (each entry a byte value);
- real-valued coordinates and durations are rationals, since every
  operation the claims touch is exact arithmetic plus floor;
- fallible code returns Except or an explicit success flag, mirroring
  the exact order of checks and mutations in the source.
-/

namespace MindRune

/-! ## Association lists (model of Python dict) -/

/-- Lookup in an association list, first binding wins (Python dict get). -/
def alLookup {κ ν : Type} [DecidableEq κ] (l : List (κ × ν)) (k : κ) : Option ν :=
  match l with
  | [] => none
  | (k₁, v₁) :: t => if k₁ = k then some v₁ else alLookup t k

/-- Upsert: replace the value in place if the key is present (CPython dicts
keep the original position on re-assignment), else append the new binding. -/
def alInsert {κ ν : Type} [DecidableEq κ] (l : List (κ × ν)) (k : κ) (v : ν) : List (κ × ν) :=
  match l with
  | [] => [(k, v)]
  | (k₁, v₁) :: t => if k₁ = k then (k₁, v) :: t else (k₁, v₁) :: alInsert t k v

/-- Delete a binding (Python del d[k] or dict.pop). Dicts never hold a key
twice, so dropping every binding of the key coincides with deleting its one
binding. -/
def alErase {κ ν : Type} [DecidableEq κ] (l : List (κ × ν)) (k : κ) : List (κ × ν) :=
  l.filter (fun p => decide (p.1 ≠ k))

/-- Key membership (Python `k in d`). -/
def alContains {κ ν : Type} [DecidableEq κ] (l : List (κ × ν)) (k : κ) : Bool :=
  (alLookup l k).isSome

/-! ## WebSocket frames (backend/server/websocket.py) -/

/-- A WebSocket frame: `WebSocketFrame` in websocket.py. Payload bytes are
naturals (each byte 0..255 on the real wire). -/
structure WSFrame where
  fin : Bool
  opcode : ℕ
  payload : List ℕ
  deriving DecidableEq, Repr

/-- Big-endian byte-string value: `struct.unpack` of ">H"/">Q" fields. -/
def beToNat (bs : List ℕ) : ℕ :=
  bs.foldl (fun a b => a * 256 + b) 0

/-- Big-endian fixed-width encoding of `n` on `k` bytes:
`struct.pack(">H", n)` is `natToBe n 2`, `struct.pack(">Q", n)` is `natToBe n 8`. -/
def natToBe (n : ℕ) : ℕ → List ℕ
  | 0 => []
  | k + 1 => natToBe (n / 256) k ++ [n % 256]

/-- XOR a byte list with a 4-byte mask starting at in-payload index `i`:
`bytes(b ^ mask[i % 4] for i, b in enumerate(payload))` in `parse`. -/
def maskFrom (m : List ℕ) : ℕ → List ℕ → List ℕ
  | _, [] => []
  | i, b :: t => (b ^^^ m.getD (i % 4) 0) :: maskFrom m (i + 1) t

/-- Apply the mask from index 0. -/
def applyMask (m bs : List ℕ) : List ℕ := maskFrom m 0 bs

/-- Tail of `WebSocketFrame.parse` after the mask key has been read:
the final payload-length check, the payload slice and the unmasking. -/
def parsePayload (data : List ℕ) (fin : Bool) (opcode : ℕ)
    (mask : Option (List ℕ)) (plen pos : ℕ) : Except String (WSFrame × ℕ) :=
  if data.length < pos + plen then .error "Not enough data for payload"
  else
    let raw := (data.drop pos).take plen
    let payload :=
      match mask with
      | some m => applyMask m raw
      | none => raw
    .ok (⟨fin, opcode, payload⟩, pos + plen)

/-- Middle of `WebSocketFrame.parse`: the mask-key read when the mask
bit is set. -/
def parseAfterLen (data : List ℕ) (fin : Bool) (opcode : ℕ) (masked : Bool)
    (plen pos : ℕ) : Except String (WSFrame × ℕ) :=
  if masked then
    if data.length < pos + 4 then .error "Not enough data for mask"
    else parsePayload data fin opcode (some ((data.drop pos).take 4)) plen (pos + 4)
  else parsePayload data fin opcode none plen pos

/-- Embedding of `WebSocketFrame.parse`: parses one frame from the start of
`data`, returning the frame and the number of bytes consumed, or raising
ValueError (an `Except.error` here) when the buffer is too short.
Bit operations mirror the source: `b0 & 0x0F` is `b0 % 16`,
`b1 & 0x7F` is `b1 % 128`, and `& 0x80` is bit 7. -/
def WSFrame.parse (data : List ℕ) : Except String (WSFrame × ℕ) :=
  if data.length < 2 then .error "Not enough data for frame header"
  else
    let b0 := data.getD 0 0
    let b1 := data.getD 1 0
    let fin := b0.testBit 7
    let opcode := b0 % 16
    let masked := b1.testBit 7
    let plen7 := b1 % 128
    if plen7 = 126 then
      if data.length < 4 then .error "Not enough data for extended length"
      else parseAfterLen data fin opcode masked (beToNat ((data.drop 2).take 2)) 4
    else if plen7 = 127 then
      if data.length < 10 then .error "Not enough data for extended length"
      else parseAfterLen data fin opcode masked (beToNat ((data.drop 2).take 8)) 10
    else parseAfterLen data fin opcode masked plen7 2

/-- Embedding of `WebSocketFrame.encode`: server-to-client encoding,
never masked, minimal length form chosen by payload length. -/
def WSFrame.encode (f : WSFrame) : List ℕ :=
  let b0 := (if f.fin then 128 else 0) ||| f.opcode
  let plen := f.payload.length
  let header :=
    if plen ≤ 125 then [b0, plen]
    else if plen ≤ 65535 then [b0, 126] ++ natToBe plen 2
    else [b0, 127] ++ natToBe plen 8
  header ++ f.payload

/-- A client-masked wire frame for `f` under 4-byte mask key `m`: the same
frame format `WSFrame.parse` reads, with the mask bit of byte 1 set, the key
after the length field, and the payload XOR-masked. This is the masked input
side of the round-trip; the server itself never masks. -/
def WSFrame.maskedEncode (f : WSFrame) (m : List ℕ) : List ℕ :=
  let b0 := (if f.fin then 128 else 0) ||| f.opcode
  let plen := f.payload.length
  let lenBytes :=
    if plen ≤ 125 then [128 + plen]
    else if plen ≤ 65535 then [128 + 126] ++ natToBe plen 2
    else [128 + 127] ++ natToBe plen 8
  [b0] ++ lenBytes ++ m ++ applyMask m f.payload

/-- A byte string that parses as one complete frame consuming every byte. -/
def CompleteFrame (w : List ℕ) : Prop :=
  ∃ f : WSFrame, WSFrame.parse w = .ok (f, w.length)

instance {α β : Type} [DecidableEq α] [DecidableEq β] : DecidableEq (Except α β) :=
  fun x y =>
    match x, y with
    | .ok a, .ok b =>
      if h : a = b then isTrue (by rw [h]) else isFalse (fun hc => h (Except.ok.inj hc))
    | .ok _, .error _ => isFalse (fun hc => Except.noConfusion hc)
    | .error _, .ok _ => isFalse (fun hc => Except.noConfusion hc)
    | .error a, .error b =>
      if h : a = b then isTrue (by rw [h]) else isFalse (fun hc => h (Except.error.inj hc))

/-- Header length implied by byte 1: 2, or 4 with a 16-bit extended length,
or 10 with a 64-bit extended length. Spec-side view of `parse`. -/
def hdrNeed (b1 : ℕ) : ℕ :=
  if b1 % 128 = 126 then 4 else if b1 % 128 = 127 then 10 else 2

/-- Length of the mask-key field implied by byte 1. -/
def maskLen (b1 : ℕ) : ℕ :=
  if b1.testBit 7 then 4 else 0

/-- Payload length announced by a buffer, read the way `parse` reads it. -/
def plenSpec (w : List ℕ) : ℕ :=
  if (w.getD 1 0) % 128 = 126 then beToNat ((w.drop 2).take 2)
  else if (w.getD 1 0) % 128 = 127 then beToNat ((w.drop 2).take 8)
  else (w.getD 1 0) % 128

/-- Total byte size of the frame a buffer announces: header, mask key and
payload. `parse` succeeds on `w` exactly when `w` holds `frameSize w` bytes,
and then consumes exactly that many. -/
def frameSize (w : List ℕ) : ℕ :=
  hdrNeed (w.getD 1 0) + maskLen (w.getD 1 0) + plenSpec w

/-- The frame a (long enough) buffer denotes, read the way `parse` reads it. -/
def frameSpec (w : List ℕ) : WSFrame :=
  let pos := hdrNeed (w.getD 1 0) + maskLen (w.getD 1 0)
  let raw := (w.drop pos).take (plenSpec w)
  { fin := (w.getD 0 0).testBit 7
    opcode := (w.getD 0 0) % 16
    payload :=
      if (w.getD 1 0).testBit 7 then
        applyMask ((w.drop (hdrNeed (w.getD 1 0))).take 4) raw
      else raw }

/-- What `WebSocketConnection.recv` does with one parsed frame
(websocket.py lines 162-180): TEXT and BINARY payloads are both returned
as the received message (each decoded as UTF-8 by the caller), PING is
answered with a PONG echoing the payload, CLOSE closes the connection,
and any other opcode falls through and the loop continues. -/
inductive FrameAction where
  | deliver (payload : List ℕ)
  | sendPong (payload : List ℕ)
  | closeConn
  | continueLoop
  deriving DecidableEq, Repr

/-- Frame dispatch inside `WebSocketConnection.recv`, in source order:
TEXT, then BINARY, then PING, then CLOSE. -/
def frameAction (f : WSFrame) : FrameAction :=
  if f.opcode = 1 then .deliver f.payload
  else if f.opcode = 2 then .deliver f.payload
  else if f.opcode = 9 then .sendPong f.payload
  else if f.opcode = 8 then .closeConn
  else .continueLoop

/-- One step of the `recv` buffering loop (websocket.py lines 140-159):
with fewer than two buffered bytes it reads more; a ValueError from
`parse` also reads more (buffer and retry -- the loop has no abort path
for a parse failure); a parsed frame is handled and its bytes consumed. -/
inductive RecvDecision where
  | readMore
  | handled (act : FrameAction) (rest : List ℕ)
  deriving DecidableEq, Repr

/-- One iteration of `WebSocketConnection.recv` on the current buffer. -/
def recvIteration (buffer : List ℕ) : RecvDecision :=
  if buffer.length < 2 then .readMore
  else
    match WSFrame.parse buffer with
    | .error _ => .readMore
    | .ok (f, consumed) => .handled (frameAction f) (buffer.drop consumed)

/-! ## Spatial hash grid (backend/engine/spatial.py) -/

/-- Entities are integer ids. -/
abbrev Entity := ℕ

/-- Grid cell coordinates. -/
abbrev Cell := ℤ × ℤ × ℤ

/-- Embedding of `SpatialHashGrid._get_cell`: `int(math.floor(coord / cell_size))`
per axis. Coordinates are rationals; floor is exact. -/
def getCell (cellSize x y z : ℚ) : Cell :=
  (⌊x / cellSize⌋, ⌊y / cellSize⌋, ⌊z / cellSize⌋)

/-- State of a `SpatialHashGrid`. `cells` maps a cell to the entities in it
(the empty list standing for an absent key: the source deletes emptied cells,
so an absent key and an empty set behave identically on every read);
`entity_cells` is the reverse map used for O(1) removal. -/
structure Grid where
  cell_size : ℚ
  cells : Cell → List Entity
  entity_cells : Entity → Option Cell

/-- Add an entity to the set of one cell (`self.cells[cell].add(entity)`,
creating the set if absent; a set add is a no-op on a present member). -/
def cellsAdd (cl : Cell → List Entity) (c : Cell) (e : Entity) : Cell → List Entity :=
  fun c₁ => if c₁ = c then (if e ∈ cl c then cl c else e :: cl c) else cl c₁

/-- Discard an entity from the set of one cell
(`self.cells[cell].discard(entity)` plus the empty-cell cleanup). -/
def cellsRemove (cl : Cell → List Entity) (c : Cell) (e : Entity) : Cell → List Entity :=
  fun c₁ => if c₁ = c then (cl c).filter (fun e₁ => e₁ ≠ e) else cl c₁

/-- Embedding of `SpatialHashGrid.update`. -/
def Grid.update (g : Grid) (e : Entity) (x y z : ℚ) : Grid :=
  let newCell := getCell g.cell_size x y z
  match g.entity_cells e with
  | some oldCell =>
    if oldCell = newCell then g
    else
      { g with
        cells := cellsAdd (cellsRemove g.cells oldCell e) newCell e
        entity_cells := fun e₁ => if e₁ = e then some newCell else g.entity_cells e₁ }
  | none =>
    { g with
      cells := cellsAdd g.cells newCell e
      entity_cells := fun e₁ => if e₁ = e then some newCell else g.entity_cells e₁ }

/-- Embedding of `SpatialHashGrid.insert`: an entity already present is
moved via `update` instead. -/
def Grid.insert (g : Grid) (e : Entity) (x y z : ℚ) : Grid :=
  match g.entity_cells e with
  | some _ => g.update e x y z
  | none =>
    let cell := getCell g.cell_size x y z
    { g with
      cells := cellsAdd g.cells cell e
      entity_cells := fun e₁ => if e₁ = e then some cell else g.entity_cells e₁ }

/-- Embedding of `SpatialHashGrid.remove`; the Bool is the return value
(True iff the entity was in the grid). -/
def Grid.remove (g : Grid) (e : Entity) : Grid × Bool :=
  match g.entity_cells e with
  | none => (g, false)
  | some cell =>
    ({ g with
       cells := cellsRemove g.cells cell e
       entity_cells := fun e₁ => if e₁ = e then none else g.entity_cells e₁ }, true)

/-- Integer range `[lo, hi]` inclusive: `range(lo, hi + 1)` in the source. -/
def intRange (lo hi : ℤ) : List ℤ :=
  (List.range (hi + 1 - lo).toNat).map (fun (i : ℕ) => lo + (i : ℤ))

/-- Embedding of `SpatialHashGrid.query_radius`: unions the entity sets of
every cell whose coordinates lie between the cells of the two cube corners.
Despite the docstring of the source, no distance filtering happens. -/
def Grid.queryRadius (g : Grid) (x y z radius : ℚ) : List Entity :=
  let minCell := getCell g.cell_size (x - radius) (y - radius) (z - radius)
  let maxCell := getCell g.cell_size (x + radius) (y + radius) (z + radius)
  (intRange minCell.1 maxCell.1).flatMap fun cx =>
    (intRange minCell.2.1 maxCell.2.1).flatMap fun cy =>
      (intRange minCell.2.2 maxCell.2.2).flatMap fun cz =>
        g.cells (cx, cy, cz)

/-- Embedding of `SpatialHashGrid.query_radius_precise`: filters the
`query_radius` candidates by exact squared distance, skipping entities
absent from the position lookup. -/
def Grid.queryRadiusPrecise (g : Grid) (x y z radius : ℚ)
    (positions : Entity → Option (ℚ × ℚ × ℚ)) : List Entity :=
  (g.queryRadius x y z radius).filter fun e =>
    match positions e with
    | none => false
    | some (ex, ey, ez) =>
      decide ((ex - x) ^ 2 + (ey - y) ^ 2 + (ez - z) ^ 2 ≤ radius * radius)

/-- A fresh grid (`SpatialHashGrid.__init__`). -/
def emptyGrid (cellSize : ℚ) : Grid :=
  { cell_size := cellSize, cells := fun _ => [], entity_cells := fun _ => none }

/-- One mutating call on the spatial index. -/
inductive SpatialOp where
  | insert (e : Entity) (x y z : ℚ)
  | update (e : Entity) (x y z : ℚ)
  | remove (e : Entity)

/-- Apply one operation to the grid. -/
def applyOp (g : Grid) : SpatialOp → Grid
  | .insert e x y z => g.insert e x y z
  | .update e x y z => g.update e x y z
  | .remove e => (g.remove e).1

/-- Apply a call sequence left to right. -/
def applyOps (g : Grid) (ops : List SpatialOp) : Grid :=
  ops.foldl applyOp g

/-- The last-set position of each entity after a call sequence: insert and
update set it, remove clears it. -/
def posApply (m : Entity → Option (ℚ × ℚ × ℚ)) : SpatialOp → Entity → Option (ℚ × ℚ × ℚ)
  | .insert e x y z => fun e₁ => if e₁ = e then some (x, y, z) else m e₁
  | .update e x y z => fun e₁ => if e₁ = e then some (x, y, z) else m e₁
  | .remove e => fun e₁ => if e₁ = e then none else m e₁

/-- Last-set positions after a whole call sequence. -/
def trackedPos (ops : List SpatialOp) : Entity → Option (ℚ × ℚ × ℚ) :=
  ops.foldl posApply (fun _ => none)

/-- Membership in the axis-aligned cube of half-width `r` centered at
`(x, y, z)` — what the claim says `query_radius` returns. -/
def InCube (p : ℚ × ℚ × ℚ) (x y z r : ℚ) : Prop :=
  |p.1 - x| ≤ r ∧ |p.2.1 - y| ≤ r ∧ |p.2.2 - z| ≤ r

instance (p : ℚ × ℚ × ℚ) (x y z r : ℚ) : Decidable (InCube p x y z r) :=
  inferInstanceAs (Decidable (_ ∧ _ ∧ _))

/-- The cell of `p` lies in the cell block `query_radius` scans for a query
at `(x, y, z)` with radius `r` under cell size `cs`. -/
def CellInRange (cs x y z r : ℚ) (p : ℚ × ℚ × ℚ) : Prop :=
  let c := getCell cs p.1 p.2.1 p.2.2
  let lo := getCell cs (x - r) (y - r) (z - r)
  let hi := getCell cs (x + r) (y + r) (z + r)
  lo.1 ≤ c.1 ∧ c.1 ≤ hi.1 ∧ lo.2.1 ≤ c.2.1 ∧ c.2.1 ≤ hi.2.1 ∧
    lo.2.2 ≤ c.2.2 ∧ c.2.2 ≤ hi.2.2

instance (cs x y z r : ℚ) (p : ℚ × ℚ × ℚ) : Decidable (CellInRange cs x y z r p) := by
  unfold CellInRange
  infer_instance

/-- The two grid maps agree with the externally tracked positions:
the reverse map is the cell of the tracked position, and cell membership
matches the reverse map. This is the invariant the source states in the
SpatialHashGrid docstring. -/
def GridInv (g : Grid) (m : Entity → Option (ℚ × ℚ × ℚ)) : Prop :=
  (∀ e, g.entity_cells e = (m e).map (fun p => getCell g.cell_size p.1 p.2.1 p.2.2)) ∧
  (∀ e c, e ∈ g.cells c ↔ g.entity_cells e = some c)

/-! ## Entity component system (backend/engine/ecs.py)

Component types are identified by small naturals (the Python code keys its
dicts by the `type` object; the embedding uses a stable numeric id as the
spec suggests for the registry). Component values are opaque naturals:
no claim inspects a component payload. -/

/-- Embedding of `EntityPool`. `active` is a Python set; `available` a list
popped from its end. -/
structure EntityPool where
  next_id : ℕ
  available : List ℕ
  active : Finset ℕ
  deriving DecidableEq

/-- Embedding of `EntityPool.acquire`. -/
def poolAcquire (p : EntityPool) : ℕ × EntityPool :=
  match p.available.getLast? with
  | some e => (e, { p with available := p.available.dropLast, active := insert e p.active })
  | none => (p.next_id, { next_id := p.next_id + 1, available := p.available,
                          active := insert p.next_id p.active })

/-- Embedding of `EntityPool.release`. -/
def poolRelease (p : EntityPool) (e : ℕ) : EntityPool :=
  if e ∈ p.active then
    { p with active := p.active.erase e, available := p.available ++ [e] }
  else p

/-- Embedding of `World`: entity pool, one component storage per registered
type (an association list entity to value), and the dependency declarations. -/
structure World where
  pool : EntityPool
  storages : List (ℕ × List (ℕ × ℕ))
  deps : List (ℕ × List ℕ)
  deriving DecidableEq

/-- A fresh world (`World.__init__`). -/
def initialWorld : World :=
  { pool := { next_id := 1, available := [], active := ∅ }, storages := [], deps := [] }

/-- Embedding of `World.create_entity`. -/
def create_entity (w : World) : ℕ × World :=
  ((poolAcquire w.pool).1, { w with pool := (poolAcquire w.pool).2 })

/-- Embedding of `World.is_alive`. -/
def is_alive (w : World) (e : ℕ) : Bool :=
  decide (e ∈ w.pool.active)

/-- Embedding of `World.has_component`. -/
def has_component (w : World) (e t : ℕ) : Bool :=
  match alLookup w.storages t with
  | none => false
  | some st => (alLookup st e).isSome

/-- Embedding of `World.destroy_entity`: no-op when inactive, otherwise
removes the entity from every registered storage and frees the id. -/
def destroy_entity (w : World) (e : ℕ) : World :=
  if is_alive w e then
    { w with
      storages := w.storages.map (fun p => (p.1, alErase p.2 e))
      pool := poolRelease w.pool e }
  else w

/-- Embedding of `World.register_component`. An empty dependency list models
both `None` and `[]` (the source guards with Python truthiness, so both
leave the dependency table untouched). -/
def register_component (w : World) (t : ℕ) (ds : List ℕ) : World :=
  let storages := if alContains w.storages t then w.storages else w.storages ++ [(t, [])]
  let deps := if ds = [] then w.deps else alInsert w.deps t ds
  { w with storages := storages, deps := deps }

/-- Embedding of `World.add_component`. The returned option is the raised
ValueError: checks run in source order, before any mutation. -/
def add_component (w : World) (e t v : ℕ) : World × Option String :=
  if ¬ is_alive w e then (w, some "Entity does not exist")
  else if (match alLookup w.deps t with
           | some ds => !(ds.all fun d => has_component w e d)
           | none => false) then (w, some "missing dependency")
  else
    let storages := if alContains w.storages t then w.storages else w.storages ++ [(t, [])]
    let st := (alLookup storages t).getD []
    ({ w with storages := alInsert storages t (alInsert st e v) }, none)

/-- Embedding of `World.remove_component`. Result: the world, the raised
ValueError if any, and the returned Bool (True iff a component was removed). -/
def remove_component (w : World) (e t : ℕ) : World × Option String × Bool :=
  if ¬ alContains w.storages t then (w, none, false)
  else if w.deps.any (fun p => decide (t ∈ p.2) && has_component w e p.1) then
    (w, some "dependency violation", false)
  else
    let st := (alLookup w.storages t).getD []
    let removed := (alLookup st e).isSome
    ({ w with storages := alInsert w.storages t (alErase st e) }, none, removed)

/-- Worlds reachable from a fresh world through the public mutating API. -/
inductive Reach : World → Prop where
  | init : Reach initialWorld
  | create (w : World) (h : Reach w) : Reach (create_entity w).2
  | destroy (w : World) (e : ℕ) (h : Reach w) : Reach (destroy_entity w e)
  | register (w : World) (t : ℕ) (ds : List ℕ) (h : Reach w) : Reach (register_component w t ds)
  | add (w : World) (e t v : ℕ) (h : Reach w) : Reach (add_component w e t v).1
  | remove (w : World) (e t : ℕ) (h : Reach w) : Reach (remove_component w e t).1

/-- The no-orphan-components invariant from the World docstring. -/
def NoOrphans (w : World) : Prop :=
  ∀ e t, has_component w e t = true → is_alive w e = true

/-- A small concrete world: entity 1 is active and carries component types
0 and 1, and type 1 declares a dependency on type 0. Used to instantiate
the dependency-rule theorems on a concrete input. -/
def exampleWorld : World :=
  { pool := { next_id := 2, available := [], active := {1} }
    storages := [(1, [(1, 0)]), (0, [(1, 0)])]
    deps := [(1, [0])] }

/-! ## System scheduler (backend/engine/ecs.py, SystemScheduler) -/

/-- One registered system as the scheduler sees it. `idx` is the
registration timestamp; it is not a field of the Python object and is used
only to state the tie-breaking property of the claim. -/
structure SysInfo where
  name : String
  priority : ℤ
  enabled : Bool
  idx : ℕ
  deriving DecidableEq, Repr

/-- The sort relation of `self.systems.sort(key=lambda s: -s.priority)`:
`a` may come before `b` when the key of `a` is at most the key of `b`. -/
def schedLE (a b : SysInfo) : Prop := b.priority ≤ a.priority

instance : DecidableRel schedLE :=
  fun x y => inferInstanceAs (Decidable (y.priority ≤ x.priority))

/-- Embedding of `SystemScheduler.add_system`: append, then re-sort the
whole list by descending priority. Python `list.sort` is stable; stable
sorts for one total preorder agree pointwise, so the stable insertion sort
is an exact model of Timsort here. -/
def addSystem (l : List SysInfo) (s : SysInfo) : List SysInfo :=
  List.insertionSort schedLE (l ++ [s])

/-- The sequence of systems a single `SystemScheduler.update` call invokes,
in order: each enabled system in list order. -/
def schedulerRun (l : List SysInfo) : List SysInfo :=
  l.filter (fun s => s.enabled)

/-- Strictly-descending-priority-with-ties-by-registration order:
how the claim describes the invocation order. -/
def lexBefore (a b : SysInfo) : Prop :=
  b.priority < a.priority ∨ (a.priority = b.priority ∧ a.idx < b.idx)

/-- The registration sequence of the claim: priorities [100, 90, 10]
registered in the scrambled order 10, 100, 90. -/
def prioDemo : List SysInfo :=
  [⟨"low", 10, true, 0⟩, ⟨"high", 100, true, 1⟩, ⟨"mid", 90, true, 2⟩]

/-! ## Game loop (backend/engine/game_loop.py)

Wall-clock instants from `time.monotonic()` are modelled by explicit
segment durations: a tick is described by the total duration of the
tick-start callbacks, the duration of each system update the scheduler
runs, and the remaining loop overhead between the two clock reads of
`_run_tick`. Monotonicity of the clock is exactly the nonnegativity of
these segments, a hypothesis of the claim theorem. -/

/-- Embedding of `TickStats` (the dataclass fields). -/
structure TickStats where
  tick_number : ℕ
  start_time : ℚ
  end_time : ℚ
  target_duration : ℚ
  actual_duration : ℚ
  system_times : List (String × ℚ)
  entity_count : ℕ
  deriving DecidableEq

/-- Embedding of the `TickStats.overran` property. -/
def TickStats.overran (s : TickStats) : Bool :=
  decide (s.target_duration < s.actual_duration)

/-- Embedding of `PerformanceMonitor` (the dataclass fields). -/
structure PerformanceMonitor where
  target_tps : ℕ
  max_history : ℕ
  tick_history : List TickStats
  total_ticks : ℕ
  overrun_count : ℕ
  deriving DecidableEq

/-- Embedding of `PerformanceMonitor.record_tick`. -/
def record_tick (pm : PerformanceMonitor) (stats : TickStats) : PerformanceMonitor :=
  let hist := pm.tick_history ++ [stats]
  let hist := if pm.max_history < hist.length then hist.drop 1 else hist
  { pm with
    tick_history := hist
    total_ticks := pm.total_ticks + 1
    overrun_count := pm.overrun_count + if stats.overran then 1 else 0 }

/-- The timings dict built by `SystemScheduler.update`: for each enabled
system in invocation order, `timings[name] = last_update_time`, where
`System.update` has just set `last_update_time` to the measured duration. -/
def buildTimings (runs : List (String × ℚ)) : List (String × ℚ) :=
  runs.foldl (fun acc p => alInsert acc p.1 p.2) []

/-- Sum of the values of a timings dict. -/
def sumVals (l : List (String × ℚ)) : ℚ :=
  (l.map Prod.snd).sum

/-- The `TickStats` record built by `GameLoop._run_tick` for one tick:
`tick_start` and `tick_end` are the two `time.monotonic()` reads, separated
by the tick-start callbacks (total duration `cbDur`), the system updates
(durations in `runs`, one entry per enabled system invoked), and the
remaining scheduler-loop overhead (`overhead`). -/
def runTickStats (tickNumber : ℕ) (t0 target cbDur overhead : ℚ)
    (runs : List (String × ℚ)) (entityCount : ℕ) : TickStats :=
  let tEnd := t0 + cbDur + overhead + sumVals runs
  { tick_number := tickNumber
    start_time := t0
    end_time := tEnd
    target_duration := target
    actual_duration := tEnd - t0
    system_times := buildTimings runs
    entity_count := entityCount }

/-! ## Game server (backend/server/game_server.py)

Only the session bookkeeping the claims touch is modelled. The per-client
traffic counters (`connected_at`, `last_message_at`, `messages_received`,
`messages_sent`) and rate-limit timestamps are observational and elided
from `Client`. Outbound messages are modelled by the `Reply` list a handler
produces for the requesting client; the full-state snapshot and the
entity-spawn broadcast are opaque constructors since no claim inspects
their contents. -/

/-- Embedding of `ConnectionState`. -/
inductive ConnState where
  | connected
  | authenticating
  | authenticated
  | inGame
  | disconnecting
  deriving DecidableEq, Repr

/-- Embedding of `ClientConnection` (session fields only, see above). -/
structure Client where
  connection_id : String
  state : ConnState
  account_id : Option ℕ
  username : Option String
  player_entity : Option ℕ
  deriving DecidableEq, Repr

/-- A message sent back to a client. -/
inductive Reply where
  | authFailure (reason : String)
  | authSuccess (entity : ℕ) (username : String)
  | fullState
  | errorMsg (code msg : String)
  | systemMsg (text : String)
  deriving DecidableEq, Repr

/-- Did the handler leave the connection open? -/
inductive ConnFate where
  | stayOpen
  | aborted
  deriving DecidableEq, Repr

/-- Embedding of the `GameServer` state the claims touch: the connection
table (a dict keyed by `connection_id`; the key is the field), the
entity-to-connection map, the ECS world, the spatial index and the user
database mapping username to (password hash, account id). -/
structure ServerState where
  connections : List Client
  entity_to_connection : List (ℕ × String)
  world : World
  spatial : Grid
  users : List (String × String × ℕ)
  next_account_id : ℕ

/-- Component type ids for the component classes spawned players carry. -/
def cPosition : ℕ := 0

def cStats : ℕ := 1

def cCombatState : ℕ := 2

def cCooldowns : ℕ := 3

def cPlayer : ℕ := 4

def cSprite : ℕ := 5

def cIdentity : ℕ := 6

def cVision : ℕ := 7

def cInventory : ℕ := 8

def cRespawn : ℕ := 9

/-- Rewrite one client record in the connection table (the Python handler
mutates the shared `ClientConnection` object in place). -/
def updateClient (st : ServerState) (cid : String) (f : Client → Client) : ServerState :=
  { st with connections := st.connections.map fun c =>
      if c.connection_id = cid then f c else c }

/-- Embedding of `GameServer._spawn_player`: create the entity, attach the
ten components, insert into the spatial index. Component payloads are
opaque (0): no claim reads them. -/
def spawnPlayer (st : ServerState) (x y z : ℚ) : ℕ × ServerState :=
  let e := (create_entity st.world).1
  let w := (create_entity st.world).2
  let w := (add_component w e cPosition 0).1
  let w := (add_component w e cStats 0).1
  let w := (add_component w e cCombatState 0).1
  let w := (add_component w e cCooldowns 0).1
  let w := (add_component w e cPlayer 0).1
  let w := (add_component w e cSprite 0).1
  let w := (add_component w e cIdentity 0).1
  let w := (add_component w e cVision 0).1
  let w := (add_component w e cInventory 0).1
  let w := (add_component w e cRespawn 0).1
  let sp := st.spatial.insert e x y z
  (e, { st with world := w, spatial := sp })

/-- The mutations of `_handle_login` past all its failure returns: mark the
client authenticated with the account, `_spawn_player` at (8, 8, 0), bind
the player entity to the client and record the entity-to-connection edge.
Returns the player entity together with the new server state. -/
def loginSuccess (st : ServerState) (cid : String) (username : String) (aid : ℕ) : ℕ × ServerState :=
  let st₁ := updateClient st cid (fun c =>
    { c with state := .authenticated, account_id := some aid, username := some username })
  let pe := (spawnPlayer st₁ 8 8 0).1
  let st₂ := (spawnPlayer st₁ 8 8 0).2
  let st₃ := updateClient st₂ cid (fun c =>
    { c with player_entity := some pe, state := .inGame })
  (pe, { st₃ with
    entity_to_connection := alInsert st₃.entity_to_connection pe cid })

/-- Embedding of `GameServer._handle_login`. `hash` abstracts
`_hash_password` (SHA-256: its algebra is irrelevant to session logic).
Branches mirror the source: empty-credential check, user lookup and hash
comparison, the already-logged-in scan over every other connection, and
only then the state mutations of `loginSuccess`. The handler runs
to completion on the asyncio event loop before the next message handler
starts, so sequential composition models the login race. -/
def handleLogin (hash : String → String) (st : ServerState) (client : Client)
    (username password : String) : ServerState × List Reply :=
  if username = "" ∨ password = "" then
    (st, [.authFailure "Missing username or password"])
  else
    match alLookup st.users username with
    | none => (st, [.authFailure "Invalid credentials"])
    | some (phash, aid) =>
      if phash ≠ hash password then (st, [.authFailure "Invalid credentials"])
      else if st.connections.any (fun c =>
          c.account_id == some aid && c.connection_id != client.connection_id) then
        (st, [.authFailure "Already logged in"])
      else
        ((loginSuccess st client.connection_id username aid).2,
         [.authSuccess (loginSuccess st client.connection_id username aid).1 username, .fullState])

/-- The decoded message envelope. Only its existence matters to the claims;
routing is abstracted by the `dispatch` parameter of `handleMessage`. -/
structure NetMessage where
  msgType : String
  deriving DecidableEq, Repr

/-- Embedding of `GameServer._handle_message` around the decode step.
`fromJson` abstracts `Message.from_json` (stdlib `json.loads` plus envelope
field extraction); every exception it raises lands in the single
`except` branch of the source, which replies with an INVALID_MESSAGE error
and returns, leaving the connection open. Rate limiting and routing happen
only after a successful decode and are abstracted by `dispatch`. -/
def handleMessage (dispatch : ServerState → Client → NetMessage → ServerState × List Reply × ConnFate)
    (fromJson : String → Except String NetMessage)
    (st : ServerState) (cid : String) (raw : String) : ServerState × List Reply × ConnFate :=
  match st.connections.find? (fun c => c.connection_id == cid) with
  | none => (st, [], .stayOpen)
  | some client =>
    match fromJson raw with
    | .error e => (st, [.errorMsg "INVALID_MESSAGE" e], .stayOpen)
    | .ok m => dispatch st client m

/-- A fixed password hash for concrete server scenarios. -/
def hashC8 : String → String := fun _ => "H"

/-- A fresh connection, id c1. -/
def clientC8a : Client := ⟨"c1", .connected, none, none, none⟩

/-- A fresh connection, id c2. -/
def clientC8b : Client := ⟨"c2", .connected, none, none, none⟩

/-- A concrete server state: two fresh connections and one account. -/
def stC8 : ServerState :=
  { connections := [clientC8a, clientC8b]
    entity_to_connection := []
    world := initialWorld
    spatial := emptyGrid 1
    users := [("alice", ("H", 7))]
    next_account_id := 8 }

/-! ## Association list lemmas -/

variable {κ ν : Type} [DecidableEq κ]

theorem alLookup_alInsert_self (l : List (κ × ν)) (k : κ) (v : ν) :
    alLookup (alInsert l k v) k = some v := by
  induction l with
  | nil => simp [alInsert, alLookup]
  | cons p t ih =>
    by_cases h : p.1 = k
    · simp [alInsert, alLookup, h]
    · simp [alInsert, alLookup, h, ih]

theorem alLookup_alInsert_ne (l : List (κ × ν)) (k k₁ : κ) (v : ν) (h : k₁ ≠ k) :
    alLookup (alInsert l k v) k₁ = alLookup l k₁ := by
  have h' : ¬ k = k₁ := fun hk => h hk.symm
  induction l with
  | nil => simp [alInsert, alLookup, h']
  | cons p t ih =>
    obtain ⟨a, b⟩ := p
    by_cases ha : a = k
    · subst ha
      simp [alInsert, alLookup, h']
    · simp [alInsert, alLookup, ha, ih]

theorem alLookup_alErase_self (l : List (κ × ν)) (k : κ) :
    alLookup (alErase l k) k = none := by
  induction l with
  | nil => rfl
  | cons p t ih =>
    obtain ⟨a, b⟩ := p
    by_cases ha : a = k
    · simpa [alErase, List.filter_cons, ha] using ih
    · simpa [alErase, List.filter_cons, ha, alLookup] using ih

theorem alLookup_alErase_ne (l : List (κ × ν)) (k k₁ : κ) (h : k₁ ≠ k) :
    alLookup (alErase l k) k₁ = alLookup l k₁ := by
  induction l with
  | nil => rfl
  | cons p t ih =>
    obtain ⟨a, b⟩ := p
    by_cases ha : a = k
    · have h2 : ¬ k = k₁ := fun hk => h hk.symm
      simpa [alErase, List.filter_cons, ha, alLookup, h2] using ih
    · simp [alErase, List.filter_cons, ha, alLookup] at ih ⊢
      by_cases hq : a = k₁ <;> simp [hq, ih]

theorem alLookup_append (l₁ l₂ : List (κ × ν)) (k : κ) :
    alLookup (l₁ ++ l₂) k =
      (match alLookup l₁ k with
       | some v => some v
       | none => alLookup l₂ k) := by
  induction l₁ with
  | nil => simp [alLookup]
  | cons p t ih =>
    by_cases hp : p.1 = k <;> simp [alLookup, hp, ih]

theorem alLookup_mapValues (l : List (κ × ν)) (f : ν → ν) (k : κ) :
    alLookup (l.map (fun p => (p.1, f p.2))) k = (alLookup l k).map f := by
  induction l with
  | nil => simp [alLookup]
  | cons p t ih =>
    by_cases hp : p.1 = k <;> simp [alLookup, hp, ih]

/-! ## Byte-level lemmas for the WebSocket frame codec -/

theorem natToBe_length (n k : ℕ) : (natToBe n k).length = k := by
  induction k generalizing n with
  | zero => simp [natToBe]
  | succ k ih => simp [natToBe, ih]

theorem beToNat_append_singleton (l : List ℕ) (b : ℕ) :
    beToNat (l ++ [b]) = beToNat l * 256 + b := by
  simp [beToNat]

theorem beToNat_natToBe (k n : ℕ) : beToNat (natToBe n k) = n % 256 ^ k := by
  induction k generalizing n with
  | zero => simp [natToBe, beToNat, Nat.mod_one]
  | succ k ih =>
    rw [natToBe, beToNat_append_singleton, ih]
    have h1 : n / 256 % 256 ^ k = n % (256 * 256 ^ k) / 256 :=
      (Nat.mod_mul_right_div_self n 256 (256 ^ k)).symm
    have h2 : (256 : ℕ) ^ (k + 1) = 256 * 256 ^ k := by ring
    have h3 : n % 256 ^ (k + 1) % 256 = n % 256 :=
      Nat.mod_mod_of_dvd n (dvd_pow_self 256 (Nat.succ_ne_zero k))
    rw [h2] at h3 ⊢
    rw [h1]
    omega

theorem maskFrom_length (m bs : List ℕ) (i : ℕ) : (maskFrom m i bs).length = bs.length := by
  induction bs generalizing i with
  | nil => rfl
  | cons b t ih => simp [maskFrom, ih]

theorem maskFrom_maskFrom (m bs : List ℕ) (i : ℕ) :
    maskFrom m i (maskFrom m i bs) = bs := by
  induction bs generalizing i with
  | nil => rfl
  | cons b t ih => simp [maskFrom, ih, Nat.xor_cancel_right]

theorem applyMask_length (m bs : List ℕ) : (applyMask m bs).length = bs.length :=
  maskFrom_length m bs 0

theorem applyMask_applyMask (m bs : List ℕ) : applyMask m (applyMask m bs) = bs :=
  maskFrom_maskFrom m bs 0

theorem testBit7_of_lt (n : ℕ) (h : n < 128) : n.testBit 7 = false :=
  Nat.testBit_lt_two_pow (by omega)

theorem testBit7_add128 (n : ℕ) (h : n < 128) : (128 + n).testBit 7 = true := by
  rw [Nat.testBit_to_div_mod]
  have h1 : (128 + n) / 2 ^ 7 = 1 := by
    rw [show (2 : ℕ) ^ 7 = 128 from rfl]
    omega
  rw [h1]
  decide

/-- Byte 0 written by encode round-trips to the fin flag and opcode. -/
theorem encByte0 (fin : Bool) (op : ℕ) (h : op ≤ 15) :
    ((if fin then 128 else 0) ||| op).testBit 7 = fin ∧
      ((if fin then 128 else 0) ||| op) % 16 = op := by
  cases fin
  · simp only [if_neg Bool.false_ne_true, Nat.zero_or]
    exact ⟨testBit7_of_lt op (by omega), Nat.mod_eq_of_lt (by omega)⟩
  · simp only [if_pos rfl]
    interval_cases op <;> exact ⟨by decide, by decide⟩

/-! ## Parse characterization: a buffer parses exactly when it holds
`frameSize` bytes, and `parse` then returns `frameSpec` having consumed
exactly `frameSize` bytes. -/

theorem hdrNeed_ge_two (b1 : ℕ) : 2 ≤ hdrNeed b1 := by
  unfold hdrNeed
  split_ifs <;> omega

theorem parse_of_frameSize_le (w : List ℕ) (h : frameSize w ≤ w.length) :
    WSFrame.parse w = .ok (frameSpec w, frameSize w) := by
  unfold frameSize hdrNeed maskLen plenSpec at h
  unfold frameSpec frameSize hdrNeed maskLen plenSpec
  simp only [WSFrame.parse, parseAfterLen, parsePayload]
  split_ifs at h ⊢ <;> first | rfl | omega

theorem parse_err_of_lt_frameSize (w : List ℕ) (h : w.length < frameSize w) :
    ∃ msg, WSFrame.parse w = .error msg := by
  unfold frameSize hdrNeed maskLen plenSpec at h
  simp only [WSFrame.parse, parseAfterLen, parsePayload]
  split_ifs at h ⊢ <;> first | exact ⟨_, rfl⟩ | omega

theorem parse_ok_iff (w : List ℕ) (f : WSFrame) (c : ℕ) :
    WSFrame.parse w = .ok (f, c) ↔
      frameSize w ≤ w.length ∧ f = frameSpec w ∧ c = frameSize w := by
  constructor
  · intro hok
    by_cases hle : frameSize w ≤ w.length
    · have := parse_of_frameSize_le w hle
      rw [this] at hok
      obtain ⟨h1, h2⟩ := Prod.mk.injEq .. ▸ (Except.ok.injEq .. ▸ hok)
      exact ⟨hle, h1.symm, h2.symm⟩
    · obtain ⟨msg, hmsg⟩ := parse_err_of_lt_frameSize w (by omega)
      rw [hmsg] at hok
      cases hok
  · rintro ⟨hle, rfl, rfl⟩
    exact parse_of_frameSize_le w hle

theorem parse_err_iff (w : List ℕ) :
    (∃ msg, WSFrame.parse w = .error msg) ↔ w.length < frameSize w := by
  constructor
  · rintro ⟨msg, hmsg⟩
    by_contra hle
    rw [parse_of_frameSize_le w (by omega)] at hmsg
    cases hmsg
  · exact parse_err_of_lt_frameSize w

/-! ## Stability of the frame size under appends and zero padding -/

theorem getD_append_left (l₁ l₂ : List ℕ) (i : ℕ) (h : i < l₁.length) :
    (l₁ ++ l₂).getD i 0 = l₁.getD i 0 := by
  rw [List.getD_eq_getElem?_getD, List.getElem?_append_left h, ← List.getD_eq_getElem?_getD]

theorem getD_append_replicate_zero (w : List ℕ) (m i : ℕ) :
    (w ++ List.replicate m 0).getD i 0 = w.getD i 0 := by
  rcases lt_or_ge i w.length with h | h
  · exact getD_append_left w _ i h
  · rw [List.getD_eq_default _ _ h]
    rw [List.getD_eq_getElem?_getD, List.getElem?_append_right h]
    simp [List.getElem?_replicate]
    split_ifs <;> rfl

theorem slice_append_left (l₁ l₂ : List ℕ) (p q : ℕ) (h : p + q ≤ l₁.length) :
    ((l₁ ++ l₂).drop p).take q = (l₁.drop p).take q := by
  rw [List.drop_append_of_le_length (by omega),
    List.take_append_of_le_length (by rw [List.length_drop]; omega)]

theorem plenSpec_append (w ext : List ℕ) (h : hdrNeed (w.getD 1 0) ≤ w.length) :
    plenSpec (w ++ ext) = plenSpec w := by
  have h2 : 2 ≤ w.length := le_trans (hdrNeed_ge_two _) h
  have hb : (w ++ ext).getD 1 0 = w.getD 1 0 := getD_append_left w ext 1 (by omega)
  unfold plenSpec
  rw [hb]
  unfold hdrNeed at h
  split_ifs at h ⊢
  · rw [slice_append_left _ _ _ _ (by omega)]
  · rw [slice_append_left _ _ _ _ (by omega)]
  · rfl

theorem frameSize_append (w ext : List ℕ) (h : hdrNeed (w.getD 1 0) ≤ w.length) :
    frameSize (w ++ ext) = frameSize w := by
  have h2 : 2 ≤ w.length := le_trans (hdrNeed_ge_two _) h
  have hb : (w ++ ext).getD 1 0 = w.getD 1 0 := getD_append_left w ext 1 (by omega)
  unfold frameSize
  rw [hb, plenSpec_append w ext h]

/-- C2 core, forward direction: a buffer that fails to parse is a proper
prefix of a complete frame, built by zero-padding to the announced size. -/
theorem err_gives_completion (data : List ℕ) (h : data.length < frameSize data) :
    ∃ ext, ext ≠ [] ∧ CompleteFrame (data ++ ext) := by
  rcases le_or_lt (hdrNeed (data.getD 1 0)) data.length with hL | hL
  · -- header complete: pad the payload out to the announced size
    refine ⟨List.replicate (frameSize data - data.length) 0, ?_, ?_⟩
    · simp only [ne_eq, List.replicate_eq_nil_iff]
      omega
    · have hfs : frameSize (data ++ List.replicate (frameSize data - data.length) 0)
          = frameSize data := frameSize_append data _ hL
      refine ⟨frameSpec (data ++ List.replicate (frameSize data - data.length) 0), ?_⟩
      have hlen : (data ++ List.replicate (frameSize data - data.length) 0).length
          = frameSize data := by
        simp [List.length_append, List.length_replicate]
        omega
      rw [parse_of_frameSize_le _ (by omega), hfs, hlen]
  · -- header incomplete: pad the header, then pad mask and payload
    set b1 := data.getD 1 0 with hb1
    set pad := data ++ List.replicate (hdrNeed b1 - data.length) 0 with hpad
    have hpadlen : pad.length = hdrNeed b1 := by
      simp [hpad, List.length_append, List.length_replicate]
      omega
    have hpadb1 : pad.getD 1 0 = b1 := by
      rw [hpad, getD_append_replicate_zero]
    refine ⟨List.replicate (hdrNeed b1 - data.length) 0 ++
      List.replicate (maskLen b1 + plenSpec pad) 0, ?_, ?_⟩
    · have : hdrNeed b1 - data.length ≠ 0 := by omega
      simp [List.replicate_eq_nil_iff, this]
    · rw [← List.append_assoc]
      rw [← hpad]
      have hfs : frameSize (pad ++ List.replicate (maskLen b1 + plenSpec pad) 0)
          = frameSize pad := by
        refine frameSize_append pad _ ?_
        rw [hpadb1, hpadlen]
      have hfs2 : frameSize pad = hdrNeed b1 + maskLen b1 + plenSpec pad := by
        unfold frameSize
        rw [hpadb1]
      have hlen : (pad ++ List.replicate (maskLen b1 + plenSpec pad) 0).length
          = hdrNeed b1 + maskLen b1 + plenSpec pad := by
        simp [List.length_append, List.length_replicate, hpadlen]
        omega
      refine ⟨frameSpec (pad ++ List.replicate (maskLen b1 + plenSpec pad) 0), ?_⟩
      rw [parse_of_frameSize_le _ (by omega), hlen]
      rw [hfs, hfs2]

/-- C2 core, reverse direction: a buffer extending to a complete frame by a
nonempty extension cannot itself parse. -/
theorem completion_gives_err (data ext : List ℕ) (hne : ext ≠ [])
    (hc : CompleteFrame (data ++ ext)) : data.length < frameSize data := by
  obtain ⟨f, hf⟩ := hc
  rw [parse_ok_iff] at hf
  obtain ⟨-, -, hc⟩ := hf
  have hext : 0 < ext.length := List.length_pos.mpr hne
  have hlen : (data ++ ext).length = data.length + ext.length := List.length_append data ext
  rcases le_or_lt (hdrNeed (data.getD 1 0)) data.length with hL | hL
  · rw [frameSize_append data ext hL] at hc
    omega
  · have : hdrNeed (data.getD 1 0) ≤ frameSize data := by
      unfold frameSize
      omega
    omega

/-- C2: every byte string given to `WebSocketFrame.parse` either yields a
frame with its consumed byte count or the single ValueError signal; on that
signal the `recv` loop buffers more data and retries (it has no abort path
for a parse failure); and the signal fires exactly on the proper prefixes of
complete well-formed frames — there is no separate malformed outcome. -/
theorem parse_need_more_vs_malformed (data : List ℕ) :
    ((∃ f c, WSFrame.parse data = .ok (f, c)) ∨ (∃ msg, WSFrame.parse data = .error msg)) ∧
    (∀ msg, WSFrame.parse data = .error msg → recvIteration data = .readMore) ∧
    ((∃ msg, WSFrame.parse data = .error msg) ↔
      ∃ ext, ext ≠ [] ∧ CompleteFrame (data ++ ext)) := by
  refine ⟨?_, ?_, ?_⟩
  · cases hp : WSFrame.parse data with
    | ok v => exact Or.inl ⟨v.1, v.2, rfl⟩
    | error msg => exact Or.inr ⟨msg, rfl⟩
  · intro msg hmsg
    unfold recvIteration
    split_ifs with h1
    · rfl
    · rw [hmsg]
  · rw [parse_err_iff]
    exact ⟨err_gives_completion data, fun ⟨ext, hne, hc⟩ => completion_gives_err data ext hne hc⟩

theorem parse_need_more_vs_malformed_witness :
    recvIteration [129, 1] = RecvDecision.readMore ∧
      ∃ ext, ext ≠ [] ∧ CompleteFrame ([129, 1] ++ ext) :=
  ⟨(parse_need_more_vs_malformed [129, 1]).2.1 "Not enough data for payload" (by decide),
   (parse_need_more_vs_malformed [129, 1]).2.2.mp ⟨"Not enough data for payload", by decide⟩⟩

/-! ## Frame round-trip lemmas, one per header shape -/

theorem parse_short (b0 : ℕ) (payload : List ℕ) (h : payload.length ≤ 125) :
    WSFrame.parse (b0 :: payload.length :: payload) =
      .ok (⟨b0.testBit 7, b0 % 16, payload⟩, (b0 :: payload.length :: payload).length) := by
  have hg1 : (b0 :: payload.length :: payload).getD 1 0 = payload.length := by simp
  have hg0 : (b0 :: payload.length :: payload).getD 0 0 = b0 := by simp
  have hmod : payload.length % 128 = payload.length := Nat.mod_eq_of_lt (by omega)
  have h126 : payload.length % 128 ≠ 126 := by omega
  have h127 : payload.length % 128 ≠ 127 := by omega
  have htb : (payload.length).testBit 7 = false := testBit7_of_lt _ (by omega)
  have hhn : hdrNeed payload.length = 2 := by simp [hdrNeed, h126, h127]
  have hml : maskLen payload.length = 0 := by simp [maskLen, htb]
  have h126p : payload.length ≠ 126 := by omega
  have h127p : payload.length ≠ 127 := by omega
  have hps : plenSpec (b0 :: payload.length :: payload) = payload.length := by
    unfold plenSpec
    rw [hg1]
    simp [hmod, h126p, h127p]
  have hfs : frameSize (b0 :: payload.length :: payload) = 2 + payload.length := by
    unfold frameSize
    rw [hg1, hhn, hml, hps]
  have hlen : (b0 :: payload.length :: payload).length = 2 + payload.length := by
    simp only [List.length_cons]
    omega
  rw [parse_ok_iff]
  refine ⟨by rw [hfs, hlen], ?_, by rw [hlen, hfs]⟩
  unfold frameSpec
  rw [hg0, hg1, hhn, hml, hps, htb]
  simp [List.take_length]

theorem parse_ext16 (b0 : ℕ) (plen : ℕ) (payload : List ℕ) (hpl : payload.length = plen)
    (h : plen ≤ 65535) :
    WSFrame.parse (b0 :: 126 :: (natToBe plen 2 ++ payload)) =
      .ok (⟨b0.testBit 7, b0 % 16, payload⟩,
        (b0 :: 126 :: (natToBe plen 2 ++ payload)).length) := by
  have hg1 : (b0 :: 126 :: (natToBe plen 2 ++ payload)).getD 1 0 = 126 := by simp
  have hg0 : (b0 :: 126 :: (natToBe plen 2 ++ payload)).getD 0 0 = b0 := by simp
  have hhn : hdrNeed 126 = 4 := by decide
  have hml : maskLen 126 = 0 := by decide
  have hn2 : (natToBe plen 2).length = 2 := natToBe_length plen 2
  have htake : ((b0 :: 126 :: (natToBe plen 2 ++ payload)).drop 2).take 2 = natToBe plen 2 := by
    show ((natToBe plen 2 ++ payload)).take 2 = natToBe plen 2
    exact List.take_left' hn2
  have hps : plenSpec (b0 :: 126 :: (natToBe plen 2 ++ payload)) = plen := by
    unfold plenSpec
    rw [hg1, if_pos (show (126 : ℕ) % 128 = 126 by norm_num), htake, beToNat_natToBe]
    have h2 : (256 : ℕ) ^ 2 = 65536 := by norm_num
    rw [h2]
    exact Nat.mod_eq_of_lt (by omega)
  have hlen : (b0 :: 126 :: (natToBe plen 2 ++ payload)).length = 4 + plen := by
    simp [hn2, hpl]
    omega
  have hfs : frameSize (b0 :: 126 :: (natToBe plen 2 ++ payload)) = 4 + plen := by
    unfold frameSize
    rw [hg1, hhn, hml, hps]
  rw [parse_ok_iff]
  refine ⟨by rw [hfs, hlen], ?_, by rw [hlen, hfs]⟩
  unfold frameSpec
  rw [hg0, hg1, hhn, hml, hps]
  have hdrop : (b0 :: 126 :: (natToBe plen 2 ++ payload)).drop (4 + 0) = payload := by
    show (natToBe plen 2 ++ payload).drop 2 = payload
    exact List.drop_left' hn2
  rw [show ((126 : ℕ).testBit 7) = false by decide]
  simp only [Bool.false_eq_true, if_false]
  rw [hdrop, ← hpl, List.take_length]

theorem parse_ext64 (b0 : ℕ) (plen : ℕ) (payload : List ℕ) (hpl : payload.length = plen)
    (h : plen < 2 ^ 64) :
    WSFrame.parse (b0 :: 127 :: (natToBe plen 8 ++ payload)) =
      .ok (⟨b0.testBit 7, b0 % 16, payload⟩,
        (b0 :: 127 :: (natToBe plen 8 ++ payload)).length) := by
  have hg1 : (b0 :: 127 :: (natToBe plen 8 ++ payload)).getD 1 0 = 127 := by simp
  have hg0 : (b0 :: 127 :: (natToBe plen 8 ++ payload)).getD 0 0 = b0 := by simp
  have hhn : hdrNeed 127 = 10 := by decide
  have hml : maskLen 127 = 0 := by decide
  have hn8 : (natToBe plen 8).length = 8 := natToBe_length plen 8
  have htake : ((b0 :: 127 :: (natToBe plen 8 ++ payload)).drop 2).take 8 = natToBe plen 8 := by
    show ((natToBe plen 8 ++ payload)).take 8 = natToBe plen 8
    exact List.take_left' hn8
  have hps : plenSpec (b0 :: 127 :: (natToBe plen 8 ++ payload)) = plen := by
    unfold plenSpec
    rw [hg1, if_neg (show ¬ ((127 : ℕ) % 128 = 126) by norm_num),
      if_pos (show (127 : ℕ) % 128 = 127 by norm_num), htake, beToNat_natToBe]
    have h2 : (256 : ℕ) ^ 8 = 18446744073709551616 := by norm_num
    have h3 : (2 : ℕ) ^ 64 = 18446744073709551616 := by norm_num
    rw [h2]
    exact Nat.mod_eq_of_lt (by omega)
  have hlen : (b0 :: 127 :: (natToBe plen 8 ++ payload)).length = 10 + plen := by
    simp [hn8, hpl]
    omega
  have hfs : frameSize (b0 :: 127 :: (natToBe plen 8 ++ payload)) = 10 + plen := by
    unfold frameSize
    rw [hg1, hhn, hml, hps]
  rw [parse_ok_iff]
  refine ⟨by rw [hfs, hlen], ?_, by rw [hlen, hfs]⟩
  unfold frameSpec
  rw [hg0, hg1, hhn, hml, hps]
  have hdrop : (b0 :: 127 :: (natToBe plen 8 ++ payload)).drop (10 + 0) = payload := by
    show (natToBe plen 8 ++ payload).drop 8 = payload
    exact List.drop_left' hn8
  rw [show ((127 : ℕ).testBit 7) = false by decide]
  simp only [Bool.false_eq_true, if_false]
  rw [hdrop, ← hpl, List.take_length]

theorem parse_short_masked (b0 : ℕ) (payload m : List ℕ) (h : payload.length ≤ 125)
    (hm : m.length = 4) :
    WSFrame.parse (b0 :: (128 + payload.length) :: (m ++ applyMask m payload)) =
      .ok (⟨b0.testBit 7, b0 % 16, payload⟩,
        (b0 :: (128 + payload.length) :: (m ++ applyMask m payload)).length) := by
  set w := b0 :: (128 + payload.length) :: (m ++ applyMask m payload) with hw
  have hg1 : w.getD 1 0 = 128 + payload.length := by simp [hw]
  have hg0 : w.getD 0 0 = b0 := by simp [hw]
  have hb1mod : (128 + payload.length) % 128 = payload.length := by omega
  have h126p : payload.length ≠ 126 := by omega
  have h127p : payload.length ≠ 127 := by omega
  have htb : (128 + payload.length).testBit 7 = true := testBit7_add128 _ (by omega)
  have hhn : hdrNeed (128 + payload.length) = 2 := by
    unfold hdrNeed
    rw [hb1mod]
    simp [h126p, h127p]
  have hml : maskLen (128 + payload.length) = 4 := by
    unfold maskLen
    rw [htb]
    rfl
  have hps : plenSpec w = payload.length := by
    unfold plenSpec
    rw [hg1, hb1mod]
    simp [h126p, h127p]
  have hamp : (applyMask m payload).length = payload.length := applyMask_length m payload
  have hlen : w.length = 6 + payload.length := by
    simp [hw, hamp, hm]
    omega
  have hfs : frameSize w = 2 + 4 + payload.length := by
    unfold frameSize
    rw [hg1, hhn, hml, hps]
  have hd2 : w.drop 2 = m ++ applyMask m payload := rfl
  have hmask : (w.drop 2).take 4 = m := by
    rw [hd2]
    exact List.take_left' hm
  have hdrop : w.drop (2 + 4) = applyMask m payload := by
    rw [← List.drop_drop, hd2]
    exact List.drop_left' hm
  rw [parse_ok_iff]
  refine ⟨by rw [hfs, hlen], ?_, by rw [hlen, hfs]⟩
  unfold frameSpec
  rw [hg1, hg0, hhn, hml, hps, htb]
  simp only [if_pos rfl, if_true]
  rw [hdrop, hmask]
  rw [show payload.length = (applyMask m payload).length from hamp.symm, List.take_length,
    applyMask_applyMask]

theorem parse_ext16_masked (b0 plen : ℕ) (payload m : List ℕ) (hpl : payload.length = plen)
    (h : plen ≤ 65535) (hm : m.length = 4) :
    WSFrame.parse (b0 :: 254 :: (natToBe plen 2 ++ (m ++ applyMask m payload))) =
      .ok (⟨b0.testBit 7, b0 % 16, payload⟩,
        (b0 :: 254 :: (natToBe plen 2 ++ (m ++ applyMask m payload))).length) := by
  set w := b0 :: 254 :: (natToBe plen 2 ++ (m ++ applyMask m payload)) with hw
  have hn2 : (natToBe plen 2).length = 2 := natToBe_length plen 2
  have hg1 : w.getD 1 0 = 254 := by simp [hw]
  have hg0 : w.getD 0 0 = b0 := by simp [hw]
  have hhn : hdrNeed 254 = 4 := by decide
  have hml : maskLen 254 = 4 := by decide
  have htake : (w.drop 2).take 2 = natToBe plen 2 := by
    show ((natToBe plen 2 ++ (m ++ applyMask m payload))).take 2 = natToBe plen 2
    exact List.take_left' hn2
  have hps : plenSpec w = plen := by
    unfold plenSpec
    rw [hg1, if_pos (show (254 : ℕ) % 128 = 126 by norm_num), htake, beToNat_natToBe]
    have h2 : (256 : ℕ) ^ 2 = 65536 := by norm_num
    rw [h2]
    exact Nat.mod_eq_of_lt (by omega)
  have hamp : (applyMask m payload).length = plen := by
    rw [applyMask_length, hpl]
  have hlen : w.length = 8 + plen := by
    simp [hw, hamp, hm, hn2]
    omega
  have hfs : frameSize w = 4 + 4 + plen := by
    unfold frameSize
    rw [hg1, hhn, hml, hps]
  have hd4 : w.drop 4 = m ++ applyMask m payload := by
    show (natToBe plen 2 ++ (m ++ applyMask m payload)).drop 2 = m ++ applyMask m payload
    exact List.drop_left' hn2
  have hmask : (w.drop 4).take 4 = m := by
    rw [hd4]
    exact List.take_left' hm
  have hdrop : w.drop (4 + 4) = applyMask m payload := by
    rw [← List.drop_drop, hd4]
    exact List.drop_left' hm
  rw [parse_ok_iff]
  refine ⟨by rw [hfs, hlen], ?_, by rw [hlen, hfs]⟩
  unfold frameSpec
  rw [hg1, hg0, hhn, hml, hps]
  rw [show ((254 : ℕ).testBit 7) = true by decide]
  simp only [if_pos rfl, if_true]
  rw [hdrop, hmask]
  rw [show plen = (applyMask m payload).length from hamp.symm, List.take_length,
    applyMask_applyMask]

theorem parse_ext64_masked (b0 plen : ℕ) (payload m : List ℕ) (hpl : payload.length = plen)
    (h : plen < 2 ^ 64) (hm : m.length = 4) :
    WSFrame.parse (b0 :: 255 :: (natToBe plen 8 ++ (m ++ applyMask m payload))) =
      .ok (⟨b0.testBit 7, b0 % 16, payload⟩,
        (b0 :: 255 :: (natToBe plen 8 ++ (m ++ applyMask m payload))).length) := by
  set w := b0 :: 255 :: (natToBe plen 8 ++ (m ++ applyMask m payload)) with hw
  have hn8 : (natToBe plen 8).length = 8 := natToBe_length plen 8
  have hg1 : w.getD 1 0 = 255 := by simp [hw]
  have hg0 : w.getD 0 0 = b0 := by simp [hw]
  have hhn : hdrNeed 255 = 10 := by decide
  have hml : maskLen 255 = 4 := by decide
  have htake : (w.drop 2).take 8 = natToBe plen 8 := by
    show ((natToBe plen 8 ++ (m ++ applyMask m payload))).take 8 = natToBe plen 8
    exact List.take_left' hn8
  have hps : plenSpec w = plen := by
    unfold plenSpec
    rw [hg1, if_neg (show ¬ ((255 : ℕ) % 128 = 126) by norm_num),
      if_pos (show (255 : ℕ) % 128 = 127 by norm_num), htake, beToNat_natToBe]
    have h2 : (256 : ℕ) ^ 8 = 18446744073709551616 := by norm_num
    have h3 : (2 : ℕ) ^ 64 = 18446744073709551616 := by norm_num
    rw [h2]
    exact Nat.mod_eq_of_lt (by omega)
  have hamp : (applyMask m payload).length = plen := by
    rw [applyMask_length, hpl]
  have hlen : w.length = 14 + plen := by
    simp [hw, hamp, hm, hn8]
    omega
  have hfs : frameSize w = 10 + 4 + plen := by
    unfold frameSize
    rw [hg1, hhn, hml, hps]
  have hd10 : w.drop 10 = m ++ applyMask m payload := by
    show (natToBe plen 8 ++ (m ++ applyMask m payload)).drop 8 = m ++ applyMask m payload
    exact List.drop_left' hn8
  have hmask : (w.drop 10).take 4 = m := by
    rw [hd10]
    exact List.take_left' hm
  have hdrop : w.drop (10 + 4) = applyMask m payload := by
    rw [← List.drop_drop, hd10]
    exact List.drop_left' hm
  rw [parse_ok_iff]
  refine ⟨by rw [hfs, hlen], ?_, by rw [hlen, hfs]⟩
  unfold frameSpec
  rw [hg1, hg0, hhn, hml, hps]
  rw [show ((255 : ℕ).testBit 7) = true by decide]
  simp only [if_pos rfl, if_true]
  rw [hdrop, hmask]
  rw [show plen = (applyMask m payload).length from hamp.symm, List.take_length,
    applyMask_applyMask]

/-- C3: parsing any well-formed single frame encoding and re-encoding
reproduces the frame. Proved for every payload length below 2^64 and every
opcode below 16, which covers the one-byte (0, 125), 16-bit (126) and
64-bit (65536) length encodings of the claim, for unmasked input
(`WSFrame.encode`, the server-to-client path) and masked input
(`WSFrame.maskedEncode`, the client-to-server path); in both cases every
encoded byte is consumed. -/
theorem frame_round_trip (fin : Bool) (op : ℕ) (payload m : List ℕ)
    (hop : op ≤ 15) (hlen : payload.length < 2 ^ 64) (hm : m.length = 4) :
    WSFrame.parse (WSFrame.encode ⟨fin, op, payload⟩) =
        .ok (⟨fin, op, payload⟩, (WSFrame.encode ⟨fin, op, payload⟩).length) ∧
      WSFrame.parse (WSFrame.maskedEncode ⟨fin, op, payload⟩ m) =
        .ok (⟨fin, op, payload⟩, (WSFrame.maskedEncode ⟨fin, op, payload⟩ m).length) := by
  obtain ⟨hb0tb, hb0mod⟩ := encByte0 fin op hop
  constructor
  · unfold WSFrame.encode
    simp only []
    by_cases h125 : payload.length ≤ 125
    · rw [if_pos h125]
      have hp := parse_short ((if fin then 128 else 0) ||| op) payload h125
      rw [hb0tb, hb0mod] at hp
      simp only [List.cons_append, List.nil_append]
      exact hp
    · rw [if_neg h125]
      by_cases h65535 : payload.length ≤ 65535
      · rw [if_pos h65535]
        have hp := parse_ext16 ((if fin then 128 else 0) ||| op) payload.length payload
          rfl h65535
        rw [hb0tb, hb0mod] at hp
        simp only [List.cons_append, List.nil_append, List.append_assoc]
        exact hp
      · rw [if_neg h65535]
        have hp := parse_ext64 ((if fin then 128 else 0) ||| op) payload.length payload
          rfl hlen
        rw [hb0tb, hb0mod] at hp
        simp only [List.cons_append, List.nil_append, List.append_assoc]
        exact hp
  · unfold WSFrame.maskedEncode
    simp only []
    by_cases h125 : payload.length ≤ 125
    · rw [if_pos h125]
      have hp := parse_short_masked ((if fin then 128 else 0) ||| op) payload m h125 hm
      rw [hb0tb, hb0mod] at hp
      simp only [List.cons_append, List.nil_append, List.append_assoc]
      exact hp
    · rw [if_neg h125]
      by_cases h65535 : payload.length ≤ 65535
      · rw [if_pos h65535]
        have hp := parse_ext16_masked ((if fin then 128 else 0) ||| op) payload.length
          payload m rfl h65535 hm
        rw [hb0tb, hb0mod] at hp
        simp only [List.cons_append, List.nil_append, List.append_assoc,
          show (128 + 126 : ℕ) = 254 from rfl]
        exact hp
      · rw [if_neg h65535]
        have hp := parse_ext64_masked ((if fin then 128 else 0) ||| op) payload.length
          payload m rfl hlen hm
        rw [hb0tb, hb0mod] at hp
        simp only [List.cons_append, List.nil_append, List.append_assoc,
          show (128 + 127 : ℕ) = 255 from rfl]
        exact hp

theorem frame_round_trip_witness :
    WSFrame.parse (WSFrame.encode ⟨true, 1, [104, 105]⟩) =
        .ok (⟨true, 1, [104, 105]⟩, (WSFrame.encode ⟨true, 1, [104, 105]⟩).length) ∧
      WSFrame.parse (WSFrame.maskedEncode ⟨true, 1, [104, 105]⟩ [7, 9, 11, 13]) =
        .ok (⟨true, 1, [104, 105]⟩,
          (WSFrame.maskedEncode ⟨true, 1, [104, 105]⟩ [7, 9, 11, 13]).length) :=
  frame_round_trip true 1 [104, 105] [7, 9, 11, 13] (by decide)
    (by norm_num) (by decide)

/-- C10: `recv` handles a BINARY frame exactly like a TEXT frame — the same
payload is delivered as the received message either way; binary frames are
never rejected or distinguished at the message layer. -/
theorem binary_treated_as_text (finA finB : Bool) (payload : List ℕ) :
    frameAction ⟨finA, 2, payload⟩ = .deliver payload ∧
      frameAction ⟨finA, 2, payload⟩ = frameAction ⟨finB, 1, payload⟩ := by
  constructor <;> rfl

/-! ## Spatial hash grid lemmas -/

theorem mem_cellsAdd (cl : Cell → List Entity) (c : Cell) (e e₁ : Entity) (c₁ : Cell) :
    e₁ ∈ cellsAdd cl c e c₁ ↔ e₁ ∈ cl c₁ ∨ (e₁ = e ∧ c₁ = c) := by
  unfold cellsAdd
  by_cases hc : c₁ = c
  · subst hc
    by_cases he : e ∈ cl c₁
    · simp [he]
      intro h
      rw [h]
      exact he
    · simp [he, List.mem_cons]
      tauto
  · simp [hc]

theorem mem_cellsRemove (cl : Cell → List Entity) (c : Cell) (e e₁ : Entity) (c₁ : Cell) :
    e₁ ∈ cellsRemove cl c e c₁ ↔ e₁ ∈ cl c₁ ∧ ¬(e₁ = e ∧ c₁ = c) := by
  unfold cellsRemove
  by_cases hc : c₁ = c
  · subst hc
    simp [List.mem_filter]
  · simp [hc]

theorem cellSize_applyOp (g : Grid) (op : SpatialOp) : (applyOp g op).cell_size = g.cell_size := by
  cases op with
  | insert e x y z =>
    show (g.insert e x y z).cell_size = g.cell_size
    unfold Grid.insert Grid.update
    cases g.entity_cells e <;> dsimp only <;> first | rfl | (split_ifs <;> rfl)
  | update e x y z =>
    show (g.update e x y z).cell_size = g.cell_size
    unfold Grid.update
    cases g.entity_cells e <;> dsimp only <;> first | rfl | (split_ifs <;> rfl)
  | remove e =>
    show ((g.remove e).1).cell_size = g.cell_size
    unfold Grid.remove
    cases g.entity_cells e <;> rfl

theorem cellSize_applyOps (g : Grid) (ops : List SpatialOp) :
    (applyOps g ops).cell_size = g.cell_size := by
  induction ops generalizing g with
  | nil => rfl
  | cons op rest ih =>
    show (applyOps (applyOp g op) rest).cell_size = g.cell_size
    rw [ih, cellSize_applyOp]

theorem gridInv_update (g : Grid) (m : Entity → Option (ℚ × ℚ × ℚ))
    (h : GridInv g m) (e : Entity) (x y z : ℚ) :
    GridInv (g.update e x y z) (fun e₁ => if e₁ = e then some (x, y, z) else m e₁) := by
  obtain ⟨h1, h2⟩ := h
  unfold Grid.update
  cases hec : g.entity_cells e with
  | some oldCell =>
    dsimp only
    by_cases hsame : oldCell = getCell g.cell_size x y z
    · rw [if_pos hsame]
      refine ⟨fun e₁ => ?_, h2⟩
      dsimp only
      split_ifs with he
      · subst he
        rw [hec, hsame]
        rfl
      · exact h1 e₁
    · rw [if_neg hsame]
      refine ⟨fun e₁ => ?_, fun e₁ c => ?_⟩
      · dsimp only
        split_ifs with he
        · rfl
        · exact h1 e₁
      · dsimp only
        rw [mem_cellsAdd, mem_cellsRemove, h2 e₁ c]
        split_ifs with he
        · subst he
          rw [hec]
          constructor
          · rintro (⟨hc, hnc⟩ | ⟨-, rfl⟩)
            · exact absurd ⟨rfl, (Option.some.inj hc).symm⟩ hnc
            · rfl
          · intro hc
            exact Or.inr ⟨rfl, (Option.some.inj hc).symm⟩
        · constructor
          · rintro (⟨hc, -⟩ | ⟨he₁, -⟩)
            · exact hc
            · exact absurd he₁ he
          · intro hc
            exact Or.inl ⟨hc, fun hp => he hp.1⟩
  | none =>
    dsimp only
    refine ⟨fun e₁ => ?_, fun e₁ c => ?_⟩
    · dsimp only
      split_ifs with he
      · rfl
      · exact h1 e₁
    · dsimp only
      rw [mem_cellsAdd, h2 e₁ c]
      split_ifs with he
      · subst he
        rw [hec]
        constructor
        · rintro (hc | ⟨-, rfl⟩)
          · cases hc
          · rfl
        · intro hc
          exact Or.inr ⟨rfl, (Option.some.inj hc).symm⟩
      · constructor
        · rintro (hc | ⟨he₁, -⟩)
          · exact hc
          · exact absurd he₁ he
        · exact Or.inl

theorem gridInv_insert (g : Grid) (m : Entity → Option (ℚ × ℚ × ℚ))
    (h : GridInv g m) (e : Entity) (x y z : ℚ) :
    GridInv (g.insert e x y z) (fun e₁ => if e₁ = e then some (x, y, z) else m e₁) := by
  have hu := gridInv_update g m h e x y z
  unfold Grid.update at hu
  unfold Grid.insert
  cases hec : g.entity_cells e with
  | some oldCell =>
    rw [hec] at hu
    unfold Grid.update
    rw [hec]
    exact hu
  | none =>
    rw [hec] at hu
    exact hu

theorem gridInv_remove (g : Grid) (m : Entity → Option (ℚ × ℚ × ℚ))
    (h : GridInv g m) (e : Entity) :
    GridInv (g.remove e).1 (fun e₁ => if e₁ = e then none else m e₁) := by
  obtain ⟨h1, h2⟩ := h
  unfold Grid.remove
  cases hec : g.entity_cells e with
  | none =>
    refine ⟨fun e₁ => ?_, h2⟩
    dsimp only
    split_ifs with he
    · subst he
      rw [hec]
      have hm := h1 e₁
      rw [hec] at hm
      cases hmm : m e₁
      · rfl
      · rw [hmm] at hm
        simp at hm
    · exact h1 e₁
  | some cell =>
    refine ⟨fun e₁ => ?_, fun e₁ c => ?_⟩
    · dsimp only
      split_ifs with he
      · rfl
      · exact h1 e₁
    · dsimp only
      rw [mem_cellsRemove, h2 e₁ c]
      split_ifs with he
      · subst he
        rw [hec]
        constructor
        · rintro ⟨hc, hnc⟩
          exact absurd ⟨rfl, (Option.some.inj hc).symm⟩ hnc
        · intro hc
          cases hc
      · constructor
        · rintro ⟨hc, -⟩
          exact hc
        · intro hc
          exact ⟨hc, fun hp => he hp.1⟩

theorem gridInv_applyOps (cs : ℚ) (ops : List SpatialOp) :
    GridInv (applyOps (emptyGrid cs) ops) (trackedPos ops) := by
  suffices h : ∀ (g : Grid) (m : Entity → Option (ℚ × ℚ × ℚ)), g.cell_size = cs →
      GridInv g m → GridInv (applyOps g ops) (ops.foldl posApply m) by
    exact h (emptyGrid cs) (fun _ => none) rfl
      ⟨fun e => rfl, fun e c => by simp [emptyGrid]⟩
  induction ops with
  | nil => exact fun g m _ h => h
  | cons op rest ih =>
    intro g m hcs h
    have hcs₁ : (applyOp g op).cell_size = cs := by rw [cellSize_applyOp, hcs]
    refine ih (applyOp g op) (posApply m op) hcs₁ ?_
    cases op with
    | insert e x y z => exact gridInv_insert g m h e x y z
    | update e x y z => exact gridInv_update g m h e x y z
    | remove e => exact gridInv_remove g m h e

theorem mem_intRange (lo hi a : ℤ) : a ∈ intRange lo hi ↔ lo ≤ a ∧ a ≤ hi := by
  unfold intRange
  constructor
  · intro hmem
    obtain ⟨i, hir, heq⟩ := List.mem_map.mp hmem
    rw [List.mem_range] at hir
    omega
  · intro h
    refine List.mem_map.mpr ⟨(a - lo).toNat, ?_, ?_⟩
    · rw [List.mem_range]
      omega
    · omega

theorem mem_queryRadius (g : Grid) (x y z r : ℚ) (e : Entity) :
    e ∈ g.queryRadius x y z r ↔
      ∃ c : Cell,
        ((getCell g.cell_size (x - r) (y - r) (z - r)).1 ≤ c.1 ∧
          c.1 ≤ (getCell g.cell_size (x + r) (y + r) (z + r)).1 ∧
          (getCell g.cell_size (x - r) (y - r) (z - r)).2.1 ≤ c.2.1 ∧
          c.2.1 ≤ (getCell g.cell_size (x + r) (y + r) (z + r)).2.1 ∧
          (getCell g.cell_size (x - r) (y - r) (z - r)).2.2 ≤ c.2.2 ∧
          c.2.2 ≤ (getCell g.cell_size (x + r) (y + r) (z + r)).2.2) ∧
        e ∈ g.cells c := by
  unfold Grid.queryRadius
  simp only [List.mem_flatMap, mem_intRange]
  constructor
  · rintro ⟨cx, ⟨hx1, hx2⟩, cy, ⟨hy1, hy2⟩, cz, ⟨hz1, hz2⟩, hm⟩
    exact ⟨(cx, cy, cz), ⟨hx1, hx2, hy1, hy2, hz1, hz2⟩, hm⟩
  · rintro ⟨⟨cx, cy, cz⟩, ⟨hx1, hx2, hy1, hy2, hz1, hz2⟩, hm⟩
    exact ⟨cx, ⟨hx1, hx2⟩, cy, ⟨hy1, hy2⟩, cz, ⟨hz1, hz2⟩, hm⟩

theorem floor_div_mono (cs a b : ℚ) (hcs : 0 < cs) (h : a ≤ b) :
    ⌊a / cs⌋ ≤ ⌊b / cs⌋ := by
  apply Int.floor_le_floor
  gcongr

theorem abs_le_of_sq_le (a r : ℚ) (hr : 0 ≤ r) (h : a ^ 2 ≤ r * r) : |a| ≤ r := by
  have h2 : a ^ 2 ≤ r ^ 2 := by nlinarith
  have h3 := abs_le_of_sq_le_sq' h2 hr
  exact abs_le.mpr h3

/-- C1 (amended): over every insert/update/remove sequence from an empty
grid, `query_radius` returns exactly the entities whose last-set position
falls in a grid cell of the scanned cell block — the cube-of-cells superset
of the claimed cube (every entity whose last-set position lies in the cube
of half-width `r` is returned, but the cube is not exact, see the
counterexample); and `query_radius_precise`, given the last-set position
lookup, returns exactly the entities within true Euclidean distance `r`. -/
theorem spatial_query_characterization (cs : ℚ) (ops : List SpatialOp) (x y z r : ℚ)
    (hcs : 0 < cs) (hr : 0 ≤ r) :
    (∀ e, e ∈ (applyOps (emptyGrid cs) ops).queryRadius x y z r ↔
        ∃ p, trackedPos ops e = some p ∧ CellInRange cs x y z r p) ∧
    (∀ e p, trackedPos ops e = some p → InCube p x y z r →
        e ∈ (applyOps (emptyGrid cs) ops).queryRadius x y z r) ∧
    (∀ e, e ∈ (applyOps (emptyGrid cs) ops).queryRadiusPrecise x y z r (trackedPos ops) ↔
        ∃ p, trackedPos ops e = some p ∧
          (p.1 - x) ^ 2 + (p.2.1 - y) ^ 2 + (p.2.2 - z) ^ 2 ≤ r * r) := by
  obtain ⟨h1, h2⟩ := gridInv_applyOps cs ops
  have hsize : (applyOps (emptyGrid cs) ops).cell_size = cs := cellSize_applyOps _ _
  have part1 : ∀ e, e ∈ (applyOps (emptyGrid cs) ops).queryRadius x y z r ↔
      ∃ p, trackedPos ops e = some p ∧ CellInRange cs x y z r p := by
    intro e
    rw [mem_queryRadius]
    constructor
    · rintro ⟨c, hrange, hmem⟩
      rw [h2 e c, h1 e] at hmem
      cases hp : trackedPos ops e with
      | none =>
        rw [hp] at hmem
        cases hmem
      | some p =>
        rw [hp] at hmem
        have hcell : getCell (applyOps (emptyGrid cs) ops).cell_size p.1 p.2.1 p.2.2 = c :=
          Option.some.inj hmem
        rw [hsize] at hcell hrange
        refine ⟨p, rfl, ?_⟩
        unfold CellInRange
        rw [hcell]
        exact hrange
    · rintro ⟨p, hp, hcir⟩
      unfold CellInRange at hcir
      refine ⟨getCell cs p.1 p.2.1 p.2.2, ?_, ?_⟩
      · rw [hsize]
        exact hcir
      · rw [h2, h1, hp, hsize]
        rfl
  have part2 : ∀ e p, trackedPos ops e = some p → InCube p x y z r →
      e ∈ (applyOps (emptyGrid cs) ops).queryRadius x y z r := by
    intro e p hp hcube
    obtain ⟨hx, hy, hz⟩ := hcube
    rw [abs_le] at hx hy hz
    refine (part1 e).mpr ⟨p, hp, ?_, ?_, ?_, ?_, ?_, ?_⟩
    · exact floor_div_mono cs _ _ hcs (by linarith [hx.1])
    · exact floor_div_mono cs _ _ hcs (by linarith [hx.2])
    · exact floor_div_mono cs _ _ hcs (by linarith [hy.1])
    · exact floor_div_mono cs _ _ hcs (by linarith [hy.2])
    · exact floor_div_mono cs _ _ hcs (by linarith [hz.1])
    · exact floor_div_mono cs _ _ hcs (by linarith [hz.2])
  refine ⟨part1, part2, ?_⟩
  intro e
  unfold Grid.queryRadiusPrecise
  rw [List.mem_filter]
  constructor
  · rintro ⟨hmem, hpred⟩
    cases hp : trackedPos ops e with
    | none =>
      rw [hp] at hpred
      cases hpred
    | some p =>
      obtain ⟨px, py, pz⟩ := p
      rw [hp] at hpred
      exact ⟨(px, py, pz), rfl, of_decide_eq_true hpred⟩
  · rintro ⟨p, hp, hdist⟩
    obtain ⟨px, py, pz⟩ := p
    dsimp only at hdist
    constructor
    · refine part2 e (px, py, pz) hp ⟨?_, ?_, ?_⟩
      · exact abs_le_of_sq_le (px - x) r hr
          (by nlinarith [sq_nonneg (py - y), sq_nonneg (pz - z)])
      · exact abs_le_of_sq_le (py - y) r hr
          (by nlinarith [sq_nonneg (px - x), sq_nonneg (pz - z)])
      · exact abs_le_of_sq_le (pz - z) r hr
          (by nlinarith [sq_nonneg (px - x), sq_nonneg (py - y)])
    · rw [hp]
      exact decide_eq_true hdist

theorem spatial_query_characterization_witness :
    1 ∈ (applyOps (emptyGrid 10) [SpatialOp.insert 1 9 0 0]).queryRadius 0 0 0 1 ↔
      ∃ p, trackedPos [SpatialOp.insert 1 9 0 0] 1 = some p ∧ CellInRange 10 0 0 0 1 p :=
  (spatial_query_characterization 10 [SpatialOp.insert 1 9 0 0] 0 0 0 1
    (by norm_num) (by norm_num)).1 1

/-- C1 counterexample: with cell size 10 and entity 1 inserted at
(9, 0, 0), the radius-1 query at the origin returns entity 1 even though
(9, 0, 0) lies far outside the cube of half-width 1 centered there:
`query_radius` unions whole cells and, despite its docstring, never filters
by distance, so it does not return exactly the cube contents. -/
theorem query_radius_counterexample :
    trackedPos [SpatialOp.insert 1 9 0 0] 1 = some (9, 0, 0) ∧
      1 ∈ (applyOps (emptyGrid 10) [SpatialOp.insert 1 9 0 0]).queryRadius 0 0 0 1 ∧
      ¬ InCube (9, 0, 0) 0 0 0 1 := by
  have h90 : ⌊(9 : ℚ) / 10⌋ = 0 := Int.floor_eq_iff.mpr (by norm_num)
  have h00 : ⌊(0 : ℚ) / 10⌋ = 0 := Int.floor_eq_iff.mpr (by norm_num)
  have hlo : ⌊((0 : ℚ) - 1) / 10⌋ = -1 := Int.floor_eq_iff.mpr (by norm_num)
  have hhi : ⌊((0 : ℚ) + 1) / 10⌋ = 0 := Int.floor_eq_iff.mpr (by norm_num)
  refine ⟨rfl, ?_, ?_⟩
  · rw [mem_queryRadius]
    refine ⟨(0, 0, 0), ?_, ?_⟩
    · show ⌊((0 : ℚ) - 1) / 10⌋ ≤ 0 ∧ (0 : ℤ) ≤ ⌊((0 : ℚ) + 1) / 10⌋ ∧
        ⌊((0 : ℚ) - 1) / 10⌋ ≤ 0 ∧ (0 : ℤ) ≤ ⌊((0 : ℚ) + 1) / 10⌋ ∧
        ⌊((0 : ℚ) - 1) / 10⌋ ≤ 0 ∧ (0 : ℤ) ≤ ⌊((0 : ℚ) + 1) / 10⌋
      rw [hlo, hhi]
      norm_num
    · show 1 ∈ cellsAdd (fun _ => []) (getCell 10 9 0 0) 1 (0, 0, 0)
      rw [mem_cellsAdd]
      right
      refine ⟨rfl, ?_⟩
      unfold getCell
      rw [h90, h00]
  · intro hcube
    have := hcube.1
    norm_num at this

/-! ## Entity component system lemmas -/

theorem alLookup_mem {κ ν : Type} [DecidableEq κ] (l : List (κ × ν)) (k : κ) (v : ν)
    (h : alLookup l k = some v) : (k, v) ∈ l := by
  induction l with
  | nil => cases h
  | cons p t ih =>
    obtain ⟨a, b⟩ := p
    by_cases ha : a = k
    · subst ha
      rw [alLookup, if_pos rfl] at h
      rw [Option.some.inj h]
      exact List.mem_cons_self _ _
    · rw [alLookup, if_neg ha] at h
      exact List.mem_cons_of_mem _ (ih h)

theorem alLookup_destroyMap (l : List (ℕ × List (ℕ × ℕ))) (e₀ t : ℕ) :
    alLookup (l.map (fun p => (p.1, alErase p.2 e₀))) t =
      (alLookup l t).map (fun st => alErase st e₀) := by
  induction l with
  | nil => rfl
  | cons p tl ih =>
    obtain ⟨a, b⟩ := p
    by_cases ha : a = t <;> simp [alLookup, ha, ih]

theorem has_component_iff (w : World) (e t : ℕ) :
    has_component w e t = true ↔
      ∃ st, alLookup w.storages t = some st ∧ (alLookup st e).isSome = true := by
  unfold has_component
  cases h : alLookup w.storages t <;> simp [h]

/-- All failure branches of `add_component` leave the world untouched. -/
theorem add_component_inactive (w : World) (e t v : ℕ) (h : is_alive w e = false) :
    add_component w e t v = (w, some "Entity does not exist") := by
  unfold add_component
  rw [if_pos (by simp [h])]

theorem add_component_depfail (w : World) (e t v : ℕ) (ds : List ℕ)
    (hd : alLookup w.deps t = some ds)
    (hfail : ds.all (fun d => has_component w e d) = false)
    (halive : is_alive w e = true) :
    add_component w e t v = (w, some "missing dependency") := by
  unfold add_component
  rw [if_neg (by simp [halive]), if_pos (by rw [hd]; simp [hfail])]

theorem add_component_success (w : World) (e t v : ℕ)
    (halive : is_alive w e = true)
    (hdep : (match alLookup w.deps t with
             | some ds => ds.all (fun d => has_component w e d)
             | none => true) = true) :
    (add_component w e t v).2 = none ∧
    (add_component w e t v).1.pool = w.pool ∧
    (add_component w e t v).1.storages = alInsert (if alContains w.storages t then w.storages else w.storages ++ [(t, [])]) t (alInsert ((alLookup (if alContains w.storages t then w.storages else w.storages ++ [(t, [])]) t).getD []) e v) := by
  unfold add_component
  rw [if_neg (by simp [halive]), if_neg ?hc]
  · exact ⟨rfl, rfl, rfl⟩
  case hc =>
    cases hd : alLookup w.deps t with
    | none => simp [hd]
    | some ds =>
      have hall : ds.all (fun d => has_component w e d) = true := by
        rw [hd] at hdep
        exact hdep
      simp [hall]

theorem pool_add_component (w : World) (e t v : ℕ) :
    (add_component w e t v).1.pool = w.pool := by
  unfold add_component
  split_ifs <;> rfl

theorem pool_remove_component (w : World) (e t : ℕ) :
    (remove_component w e t).1.pool = w.pool := by
  unfold remove_component
  split_ifs <;> rfl

theorem is_alive_add_component (w : World) (e t v e₁ : ℕ) :
    is_alive (add_component w e t v).1 e₁ = is_alive w e₁ := by
  unfold is_alive
  rw [pool_add_component]

theorem is_alive_remove_component (w : World) (e t e₁ : ℕ) :
    is_alive (remove_component w e t).1 e₁ = is_alive w e₁ := by
  unfold is_alive
  rw [pool_remove_component]

theorem remove_component_cases (w : World) (e t : ℕ) :
    (remove_component w e t).1 = w ∨
      (remove_component w e t).1.storages = alInsert w.storages t (alErase ((alLookup w.storages t).getD []) e) := by
  unfold remove_component
  split_ifs <;> simp

theorem destroy_storages (w : World) (e₀ : ℕ) (h : is_alive w e₀ = true) :
    (destroy_entity w e₀).storages = w.storages.map (fun p => (p.1, alErase p.2 e₀)) := by
  unfold destroy_entity
  rw [if_pos h]

theorem destroy_pool (w : World) (e₀ : ℕ) (h : is_alive w e₀ = true) :
    (destroy_entity w e₀).pool = poolRelease w.pool e₀ := by
  unfold destroy_entity
  rw [if_pos h]

theorem destroy_inactive (w : World) (e₀ : ℕ) (h : ¬ is_alive w e₀ = true) :
    destroy_entity w e₀ = w := by
  unfold destroy_entity
  rw [if_neg h]

theorem register_pool (w : World) (t : ℕ) (ds : List ℕ) :
    (register_component w t ds).pool = w.pool := rfl

theorem register_storages (w : World) (t : ℕ) (ds : List ℕ) :
    (register_component w t ds).storages =
      (if alContains w.storages t then w.storages else w.storages ++ [(t, [])]) := rfl

theorem poolAcquire_mem (p : EntityPool) (e : ℕ) (h : e ∈ p.active) :
    e ∈ (poolAcquire p).2.active := by
  unfold poolAcquire
  cases p.available.getLast? <;> exact Finset.mem_insert_of_mem h

/-- Entities holding a component in a storage table remain orphan-free when
looked up through `has_component`, given the invariant for the base world:
helper transferring membership across alInsert on another key. -/
theorem has_component_of_storages (w₁ w : World) (e t : ℕ)
    (hst : w₁.storages = w.storages) (hc : has_component w₁ e t = true) :
    has_component w e t = true := by
  rw [has_component_iff] at hc ⊢
  rw [hst] at hc
  exact hc

/-- The no-orphans invariant holds in every reachable world: a component is
only ever attached to an active entity. -/
theorem reach_noOrphans (w : World) (h : Reach w) : NoOrphans w := by
  induction h with
  | init =>
    intro e t hc
    rw [has_component_iff] at hc
    obtain ⟨st, hst, -⟩ := hc
    cases hst
  | create w h ih =>
    intro e t hc
    have hc₁ : has_component w e t = true := hc
    have := ih e t hc₁
    unfold is_alive at this ⊢
    show decide (e ∈ (poolAcquire w.pool).2.active) = true
    simp only [decide_eq_true_eq] at this ⊢
    exact poolAcquire_mem w.pool e this
  | destroy w e₀ h ih =>
    intro e t hc
    by_cases halive : is_alive w e₀ = true
    · rw [has_component_iff] at hc
      obtain ⟨st, hst, hsome⟩ := hc
      rw [destroy_storages w e₀ halive, alLookup_destroyMap] at hst
      cases hst0 : alLookup w.storages t with
      | none =>
        rw [hst0] at hst
        cases hst
      | some st0 =>
        rw [hst0] at hst
        have hst0eq : alErase st0 e₀ = st := Option.some.inj hst
        by_cases he : e = e₀
        · subst he
          rw [← hst0eq, alLookup_alErase_self] at hsome
          cases hsome
        · rw [← hst0eq, alLookup_alErase_ne _ _ _ he] at hsome
          have halive₁ := ih e t ((has_component_iff w e t).mpr ⟨st0, hst0, hsome⟩)
          unfold is_alive at halive₁ ⊢
          rw [destroy_pool w e₀ halive]
          unfold poolRelease
          rw [if_pos (by simpa [is_alive] using halive)]
          simp only [decide_eq_true_eq] at halive₁ ⊢
          exact Finset.mem_erase.mpr ⟨he, halive₁⟩
    · rw [destroy_inactive w e₀ halive] at hc ⊢
      exact ih e t hc
  | register w t₀ ds h ih =>
    intro e t hc
    show is_alive _ e = true
    rw [show is_alive (register_component w t₀ ds) e = is_alive w e from rfl]
    rw [has_component_iff] at hc
    rw [register_storages] at hc
    obtain ⟨st, hst, hsome⟩ := hc
    by_cases hcont : alContains w.storages t₀
    · rw [if_pos hcont] at hst
      exact ih e t ((has_component_iff w e t).mpr ⟨st, hst, hsome⟩)
    · rw [if_neg hcont] at hst
      rw [alLookup_append] at hst
      cases hl : alLookup w.storages t with
      | some st₁ =>
        rw [hl] at hst
        exact ih e t ((has_component_iff w e t).mpr ⟨st₁, hl, (Option.some.inj hst) ▸ hsome⟩)
      | none =>
        rw [hl] at hst
        by_cases ht : t₀ = t
        · rw [alLookup, if_pos ht] at hst
          rw [← Option.some.inj hst] at hsome
          cases hsome
        · rw [alLookup, if_neg ht] at hst
          cases hst
  | add w e₀ t₀ v h ih =>
    intro e t hc
    rw [is_alive_add_component]
    by_cases halive : is_alive w e₀ = true
    · by_cases hdep : (match alLookup w.deps t₀ with
        | some ds => ds.all (fun d => has_component w e₀ d)
        | none => true) = true
      · obtain ⟨-, -, hsto⟩ := add_component_success w e₀ t₀ v halive hdep
        rw [has_component_iff, hsto] at hc
        obtain ⟨st, hst, hsome⟩ := hc
        by_cases ht : t = t₀
        · subst ht
          rw [alLookup_alInsert_self] at hst
          rw [← Option.some.inj hst] at hsome
          by_cases he : e = e₀
          · subst he
            exact halive
          · rw [alLookup_alInsert_ne _ _ _ _ he] at hsome
            by_cases hcont : alContains w.storages t
            · rw [if_pos hcont] at hsome
              unfold alContains at hcont
              cases hl : alLookup w.storages t with
              | none =>
                rw [hl] at hcont
                cases hcont
              | some st0 =>
                rw [hl] at hsome
                exact ih e t ((has_component_iff w e t).mpr ⟨st0, hl, hsome⟩)
            · rw [if_neg hcont] at hsome
              unfold alContains at hcont
              cases hl : alLookup w.storages t with
              | some st0 =>
                rw [hl] at hcont
                cases hcont rfl
              | none =>
                rw [alLookup_append, hl] at hsome
                rw [alLookup, if_pos rfl] at hsome
                simp at hsome
                cases hsome
        · rw [alLookup_alInsert_ne _ _ _ _ (fun hh => ht hh)] at hst
          by_cases hcont : alContains w.storages t₀
          · rw [if_pos hcont] at hst
            exact ih e t ((has_component_iff w e t).mpr ⟨st, hst, hsome⟩)
          · rw [if_neg hcont, alLookup_append] at hst
            cases hl : alLookup w.storages t with
            | some st₁ =>
              rw [hl] at hst
              exact ih e t ((has_component_iff w e t).mpr ⟨st₁, hl, (Option.some.inj hst) ▸ hsome⟩)
            | none =>
              rw [hl] at hst
              rw [alLookup, if_neg (fun hh => ht hh.symm)] at hst
              cases hst
      · cases hd : alLookup w.deps t₀ with
        | none =>
          exfalso
          apply hdep
          rw [hd]
        | some ds =>
          have hfail : ds.all (fun d => has_component w e₀ d) = false := by
            rw [hd] at hdep
            simpa using hdep
          rw [add_component_depfail w e₀ t₀ v ds hd hfail halive] at hc
          exact ih e t hc
    · have hw : add_component w e₀ t₀ v = (w, some "Entity does not exist") :=
        add_component_inactive w e₀ t₀ v (by simpa using halive)
      rw [hw] at hc
      exact ih e t hc
  | remove w e₀ t₀ h ih =>
    intro e t hc
    rw [is_alive_remove_component]
    rcases remove_component_cases w e₀ t₀ with heq | hsto
    · rw [heq] at hc
      exact ih e t hc
    · rw [has_component_iff, hsto] at hc
      obtain ⟨st, hst, hsome⟩ := hc
      by_cases ht : t = t₀
      · subst ht
        rw [alLookup_alInsert_self] at hst
        rw [← Option.some.inj hst] at hsome
        by_cases he : e = e₀
        · subst he
          rw [alLookup_alErase_self] at hsome
          cases hsome
        · rw [alLookup_alErase_ne _ _ _ he] at hsome
          cases hl : alLookup w.storages t with
          | none =>
            rw [hl] at hsome
            cases hsome
          | some st0 =>
            rw [hl] at hsome
            exact ih e t ((has_component_iff w e t).mpr ⟨st0, hl, hsome⟩)
      · rw [alLookup_alInsert_ne _ _ _ _ (fun hh => ht hh)] at hst
        exact ih e t ((has_component_iff w e t).mpr ⟨st, hst, hsome⟩)

/-- C4: for a registered dependency pair (A depends on B) and an active
entity e, add_component(e, A, v) succeeds only when B is present on e; when
B is absent it raises the missing-dependency ValueError with the store
completely unchanged; and remove_component(e, B) raises the
dependency-violation ValueError while e holds A, again leaving the store
completely unchanged (B registered, as it is whenever A could be added). -/
theorem dependency_rules (w : World) (A B e v : ℕ) (ds : List ℕ)
    (hdeps : alLookup w.deps A = some ds) (hB : B ∈ ds)
    (halive : is_alive w e = true) :
    ((add_component w e A v).2 = none → has_component w e B = true) ∧
    (has_component w e B = false →
      add_component w e A v = (w, some "missing dependency")) ∧
    (has_component w e A = true → alContains w.storages B = true →
      remove_component w e B = (w, some "dependency violation", false)) := by
  refine ⟨?_, ?_, ?_⟩
  · intro hok
    by_cases hall : ds.all (fun d => has_component w e d) = true
    · rw [List.all_eq_true] at hall
      exact hall B hB
    · have hfail : ds.all (fun d => has_component w e d) = false := by
        cases hx : ds.all (fun d => has_component w e d)
        · rfl
        · exact absurd hx hall
      rw [add_component_depfail w e A v ds hdeps hfail halive] at hok
      cases hok
  · intro hnoB
    have hfail : ds.all (fun d => has_component w e d) = false := by
      cases hx : ds.all (fun d => has_component w e d)
      · rfl
      · rw [List.all_eq_true] at hx
        have hBx := hx B hB
        rw [hnoB] at hBx
        cases hBx
    exact add_component_depfail w e A v ds hdeps hfail halive
  · intro hA hBst
    unfold remove_component
    rw [if_neg (by simp [hBst])]
    have hany : (w.deps.any (fun p => decide (B ∈ p.2) && has_component w e p.1)) = true :=
      List.any_eq_true.mpr ⟨(A, ds), alLookup_mem w.deps A ds hdeps, by simp [hB, hA]⟩
    rw [if_pos hany]

theorem dependency_rules_witness :
    remove_component exampleWorld 1 0 = (exampleWorld, some "dependency violation", false) :=
  ((dependency_rules exampleWorld 1 0 1 7 [0] (by decide) (by decide) (by decide)).2.2
    (by decide) (by decide))

/-- C5: after destroy_entity(e) on a reachable world, e holds no component
of any type and is no longer alive; and when e was already inactive the
call is a no-op returning the world (pool and storages) unchanged. -/
theorem destroy_entity_spec (w : World) (h : Reach w) (e : ℕ) :
    (∀ t, has_component (destroy_entity w e) e t = false) ∧
    is_alive (destroy_entity w e) e = false ∧
    (is_alive w e = false → destroy_entity w e = w) := by
  refine ⟨?_, ?_, ?_⟩
  · intro t
    by_cases halive : is_alive w e = true
    · cases hc : has_component (destroy_entity w e) e t
      · rfl
      · exfalso
        rw [has_component_iff] at hc
        rw [destroy_storages w e halive, alLookup_destroyMap] at hc
        obtain ⟨st, hst, hsome⟩ := hc
        cases hl : alLookup w.storages t with
        | none =>
          rw [hl] at hst
          cases hst
        | some st0 =>
          rw [hl] at hst
          rw [← Option.some.inj hst, alLookup_alErase_self] at hsome
          cases hsome
    · rw [destroy_inactive w e halive]
      cases hc : has_component w e t
      · rfl
      · exact absurd (reach_noOrphans w h e t hc) halive
  · by_cases halive : is_alive w e = true
    · unfold is_alive
      rw [destroy_pool w e halive]
      unfold poolRelease
      rw [if_pos (by simpa [is_alive] using halive)]
      simp [Finset.not_mem_erase]
    · rw [destroy_inactive w e halive]
      simpa using halive
  · intro hin
    exact destroy_inactive w e (by simp [hin])

theorem destroy_entity_spec_witness :
    has_component (destroy_entity initialWorld 5) 5 3 = false ∧
      is_alive (destroy_entity initialWorld 5) 5 = false ∧
      destroy_entity initialWorld 5 = initialWorld := by
  obtain ⟨h1, h2, h3⟩ := destroy_entity_spec initialWorld Reach.init 5
  exact ⟨h1 3, h2, h3 (by decide)⟩

/-! ## Scheduler lemmas -/

theorem orderedInsert_lex (a : SysInfo) (m : List SysInfo)
    (hm : m.Pairwise lexBefore)
    (hidx : ∀ b ∈ m, a.priority = b.priority → a.idx < b.idx) :
    (List.orderedInsert schedLE a m).Pairwise lexBefore ∧
      (List.orderedInsert schedLE a m).Perm (a :: m) := by
  induction m with
  | nil => exact ⟨List.pairwise_singleton _ _, List.Perm.refl _⟩
  | cons b tl ih =>
    rw [List.orderedInsert]
    by_cases hr : schedLE a b
    · rw [if_pos hr]
      have hr' : b.priority ≤ a.priority := hr
      refine ⟨List.pairwise_cons.mpr ⟨?_, hm⟩, List.Perm.refl _⟩
      intro c hc
      rcases List.mem_cons.mp hc with rfl | hctl
      · rcases lt_or_eq_of_le hr' with hlt | heq
        · exact Or.inl hlt
        · exact Or.inr ⟨heq.symm, hidx c (List.mem_cons_self c tl) heq.symm⟩
      · have hbc := (List.pairwise_cons.mp hm).1 c hctl
        rcases hbc with hlt | ⟨heq, hidxbc⟩
        · exact Or.inl (lt_of_lt_of_le hlt hr')
        · rcases lt_or_eq_of_le hr' with hlt2 | heq2
          · exact Or.inl (heq ▸ hlt2)
          · exact Or.inr ⟨heq2.symm.trans heq,
              hidx c (List.mem_cons_of_mem _ hctl) (heq2.symm.trans heq)⟩
    · rw [if_neg hr]
      have hab : a.priority < b.priority := lt_of_not_le hr
      obtain ⟨htl_pw, htl_perm⟩ := ih (List.pairwise_cons.mp hm).2
        (fun c hc heq => hidx c (List.mem_cons_of_mem _ hc) heq)
      constructor
      · refine List.pairwise_cons.mpr ⟨?_, htl_pw⟩
        intro c hc
        rcases List.mem_cons.mp (htl_perm.mem_iff.mp hc) with rfl | hctl
        · exact Or.inl hab
        · exact (List.pairwise_cons.mp hm).1 c hctl
      · exact (htl_perm.cons b).trans (List.Perm.swap a b tl)

theorem addSystem_lex (l : List SysInfo) (x : SysInfo)
    (hl : l.Pairwise lexBefore) (hidx : ∀ a ∈ l, a.idx < x.idx) :
    (addSystem l x).Pairwise lexBefore ∧ (addSystem l x).Perm (l ++ [x]) := by
  unfold addSystem
  induction l with
  | nil =>
    constructor
    · exact List.pairwise_singleton _ _
    · exact List.Perm.refl _
  | cons a tl ih =>
    rw [show ((a :: tl) ++ [x]) = a :: (tl ++ [x]) from rfl, List.insertionSort]
    obtain ⟨hpw, hperm⟩ := ih (List.pairwise_cons.mp hl).2
      (fun c hc => hidx c (List.mem_cons_of_mem _ hc))
    have hidx2 : ∀ b ∈ List.insertionSort schedLE (tl ++ [x]),
        a.priority = b.priority → a.idx < b.idx := by
      intro b hb heq
      rcases List.mem_append.mp (hperm.mem_iff.mp hb) with hbtl | hbx
      · rcases (List.pairwise_cons.mp hl).1 b hbtl with hlt | ⟨-, hidx2⟩
        · exfalso
          omega
        · exact hidx2
      · rw [List.mem_singleton.mp hbx]
        exact hidx a (List.mem_cons_self a tl)
    obtain ⟨h1, h2⟩ := orderedInsert_lex a _ hpw hidx2
    exact ⟨h1, h2.trans (hperm.cons a)⟩

theorem foldl_addSystem_spec (adds : List SysInfo) (init : List SysInfo)
    (hadds : adds.Pairwise (fun a b => a.idx < b.idx))
    (hinit : init.Pairwise lexBefore)
    (hlt : ∀ a ∈ init, ∀ b ∈ adds, a.idx < b.idx) :
    (adds.foldl addSystem init).Perm (init ++ adds) ∧
      (adds.foldl addSystem init).Pairwise lexBefore := by
  induction adds generalizing init with
  | nil =>
    rw [List.foldl_nil, List.append_nil]
    exact ⟨List.Perm.refl _, hinit⟩
  | cons x rest ih =>
    rw [List.foldl_cons]
    obtain ⟨hax_pw, hax_perm⟩ := addSystem_lex init x hinit
      (fun a ha => hlt a ha x (List.mem_cons_self x rest))
    have hrest_pw : rest.Pairwise (fun a b => a.idx < b.idx) := (List.pairwise_cons.mp hadds).2
    have hlt2 : ∀ a ∈ addSystem init x, ∀ b ∈ rest, a.idx < b.idx := by
      intro a ha b hb
      rcases List.mem_append.mp (hax_perm.mem_iff.mp ha) with hai | hax
      · exact hlt a hai b (List.mem_cons_of_mem _ hb)
      · rw [List.mem_singleton.mp hax]
        exact (List.pairwise_cons.mp hadds).1 b hb
    obtain ⟨hperm, hpw⟩ := ih (addSystem init x) hrest_pw hax_pw hlt2
    refine ⟨?_, hpw⟩
    rw [show init ++ (x :: rest) = (init ++ [x]) ++ rest by simp]
    exact hperm.trans (hax_perm.append_right rest)

/-- C6: for every registration sequence (the `idx` field recording
registration order), a single `SystemScheduler.update` call invokes the
enabled systems as a permutation of the registered enabled systems that is
strictly ordered by descending priority with ties broken by registration
order (`lexBefore`); the scheduler list itself is the same ordering of all
registered systems. -/
theorem scheduler_invocation_order (adds : List SysInfo)
    (hidx : adds.Pairwise (fun a b => a.idx < b.idx)) :
    ((adds.foldl addSystem []).Perm adds) ∧
    ((adds.foldl addSystem []).Pairwise lexBefore) ∧
    ((schedulerRun (adds.foldl addSystem [])).Perm (adds.filter (fun s => s.enabled))) ∧
    ((schedulerRun (adds.foldl addSystem [])).Pairwise lexBefore) := by
  obtain ⟨hperm, hpw⟩ := foldl_addSystem_spec adds [] hidx (List.Pairwise.nil) (by simp)
  rw [List.nil_append] at hperm
  exact ⟨hperm, hpw, hperm.filter _, hpw.filter _⟩

theorem scheduler_invocation_order_witness :
    ((prioDemo.foldl addSystem []).Perm prioDemo) ∧
    ((prioDemo.foldl addSystem []).Pairwise lexBefore) ∧
    ((schedulerRun (prioDemo.foldl addSystem [])).Perm (prioDemo.filter (fun s => s.enabled))) ∧
    ((schedulerRun (prioDemo.foldl addSystem [])).Pairwise lexBefore) :=
  scheduler_invocation_order prioDemo (by decide)

/-! ## Game loop lemmas -/

theorem sumVals_cons (p : String × ℚ) (t : List (String × ℚ)) :
    sumVals (p :: t) = p.2 + sumVals t := by
  simp [sumVals]

theorem sumVals_alInsert_le (l : List (String × ℚ)) (k : String) (v : ℚ)
    (hl : ∀ p ∈ l, 0 ≤ p.2) :
    sumVals (alInsert l k v) ≤ sumVals l + v := by
  induction l with
  | nil => simp [alInsert, sumVals]
  | cons hd tl ih =>
    obtain ⟨k₁, v₁⟩ := hd
    have hv₁ : 0 ≤ v₁ := hl (k₁, v₁) (List.mem_cons_self _ _)
    by_cases h : k₁ = k
    · rw [alInsert, if_pos h, sumVals_cons, sumVals_cons]
      linarith
    · rw [alInsert, if_neg h, sumVals_cons, sumVals_cons]
      have := ih (fun p hp => hl p (List.mem_cons_of_mem _ hp))
      linarith

theorem alInsert_nonneg (l : List (String × ℚ)) (k : String) (v : ℚ)
    (hl : ∀ p ∈ l, 0 ≤ p.2) (hv : 0 ≤ v) :
    ∀ p ∈ alInsert l k v, 0 ≤ p.2 := by
  induction l with
  | nil =>
    intro p hp
    simp only [alInsert, List.mem_singleton] at hp
    simpa [hp] using hv
  | cons hd tl ih =>
    obtain ⟨k₁, v₁⟩ := hd
    have hv₁ : 0 ≤ v₁ := hl (k₁, v₁) (List.mem_cons_self _ _)
    intro p hp
    by_cases h : k₁ = k
    · rw [alInsert, if_pos h] at hp
      rcases List.mem_cons.mp hp with rfl | hpt
      · exact hv
      · exact hl p (List.mem_cons_of_mem _ hpt)
    · rw [alInsert, if_neg h] at hp
      rcases List.mem_cons.mp hp with rfl | hpt
      · exact hv₁
      · exact ih (fun q hq => hl q (List.mem_cons_of_mem _ hq)) p hpt

theorem sumVals_foldl_le (runs : List (String × ℚ)) (acc : List (String × ℚ))
    (hr : ∀ p ∈ runs, 0 ≤ p.2) (ha : ∀ p ∈ acc, 0 ≤ p.2) :
    sumVals (runs.foldl (fun a p => alInsert a p.1 p.2) acc) ≤
      sumVals acc + sumVals runs := by
  induction runs generalizing acc with
  | nil => simp [sumVals]
  | cons q rest ih =>
    rw [List.foldl_cons, sumVals_cons]
    have hq : 0 ≤ q.2 := hr q (List.mem_cons_self _ _)
    have hacc' : ∀ p ∈ alInsert acc q.1 q.2, 0 ≤ p.2 :=
      alInsert_nonneg acc q.1 q.2 ha hq
    have h1 := ih (alInsert acc q.1 q.2)
      (fun p hp => hr p (List.mem_cons_of_mem _ hp)) hacc'
    have h2 := sumVals_alInsert_le acc q.1 q.2 ha
    linarith

theorem sumVals_buildTimings_le (runs : List (String × ℚ))
    (hr : ∀ p ∈ runs, 0 ≤ p.2) :
    sumVals (buildTimings runs) ≤ sumVals runs := by
  have := sumVals_foldl_le runs [] hr (by simp)
  simpa [buildTimings, sumVals] using this

/-- C7: for every tick executed by the game loop (its `TickStats` built by
`_run_tick` from the monotonic-clock reads, so the tick-start-callback
duration, the scheduler-loop overhead and each per-system duration are
nonnegative), if the per-system update times recorded in the tick's
`system_times` dict sum to more than the target duration, then
`TickStats.overran` is `true` and `PerformanceMonitor.record_tick`
increments `overrun_count` by exactly one. -/
theorem tick_overrun (pm : PerformanceMonitor) (tickNumber entityCount : ℕ)
    (t0 target cbDur overhead : ℚ) (runs : List (String × ℚ))
    (hcb : 0 ≤ cbDur) (hov : 0 ≤ overhead) (hr : ∀ p ∈ runs, 0 ≤ p.2)
    (hover : target <
      sumVals (runTickStats tickNumber t0 target cbDur overhead runs entityCount).system_times) :
    (runTickStats tickNumber t0 target cbDur overhead runs entityCount).overran = true ∧
      (record_tick pm
        (runTickStats tickNumber t0 target cbDur overhead runs entityCount)).overrun_count =
        pm.overrun_count + 1 := by
  have hle := sumVals_buildTimings_le runs hr
  have hsys : (runTickStats tickNumber t0 target cbDur overhead runs entityCount).system_times =
      buildTimings runs := rfl
  rw [hsys] at hover
  have hact : (runTickStats tickNumber t0 target cbDur overhead runs entityCount).actual_duration =
      cbDur + overhead + sumVals runs := by
    simp [runTickStats]
    ring
  have h1 : (runTickStats tickNumber t0 target cbDur overhead runs entityCount).overran = true := by
    rw [TickStats.overran, decide_eq_true_eq, hact]
    show (runTickStats tickNumber t0 target cbDur overhead runs entityCount).target_duration < _
    have htgt : (runTickStats tickNumber t0 target cbDur overhead runs entityCount).target_duration =
        target := rfl
    rw [htgt]
    linarith
  refine ⟨h1, ?_⟩
  rw [record_tick]
  simp [h1]

theorem tick_overrun_witness :
    (runTickStats 1 0 1 0 0 [("move", 2)] 0).overran = true ∧
      (record_tick ⟨20, 100, [], 0, 0⟩ (runTickStats 1 0 1 0 0 [("move", 2)] 0)).overrun_count =
        (⟨20, 100, [], 0, 0⟩ : PerformanceMonitor).overrun_count + 1 :=
  tick_overrun ⟨20, 100, [], 0, 0⟩ 1 0 0 1 0 0 [("move", 2)]
    (le_refl 0) (le_refl 0)
    (by
      intro p hp
      simp only [List.mem_singleton] at hp
      rw [hp]
      norm_num)
    (by
      show (1 : ℚ) < sumVals (buildTimings [("move", 2)])
      norm_num [buildTimings, alInsert, sumVals])

/-! ## Game server lemmas -/

theorem updateClient_mem_self (st : ServerState) (cid : String) (f : Client → Client)
    (c : Client) (hc : c ∈ st.connections) (hcid : c.connection_id = cid) :
    f c ∈ (updateClient st cid f).connections := by
  unfold updateClient
  refine List.mem_map.mpr ⟨c, hc, ?_⟩
  simp [hcid]

theorem updateClient_mem_other (st : ServerState) (cid : String) (f : Client → Client)
    (hf : ∀ x, (f x).connection_id = x.connection_id)
    (c : Client) (hc : c ∈ (updateClient st cid f).connections)
    (hne : c.connection_id ≠ cid) : c ∈ st.connections := by
  unfold updateClient at hc
  obtain ⟨a, ha, hac⟩ := List.mem_map.mp hc
  by_cases h : a.connection_id = cid
  · exfalso
    rw [if_pos h] at hac
    apply hne
    rw [← hac, hf a, h]
  · rw [if_neg h] at hac
    rw [← hac]
    exact ha

theorem handleLogin_eq_of_valid (hash : String → String) (st : ServerState) (client : Client)
    (username password phash : String) (aid : ℕ)
    (hu : username ≠ "") (hp : password ≠ "")
    (hlookup : alLookup st.users username = some (phash, aid))
    (hhash : phash = hash password) :
    handleLogin hash st client username password =
      if st.connections.any (fun c =>
          c.account_id == some aid && c.connection_id != client.connection_id) then
        (st, [Reply.authFailure "Already logged in"])
      else
        ((loginSuccess st client.connection_id username aid).2,
         [Reply.authSuccess (loginSuccess st client.connection_id username aid).1 username,
          Reply.fullState]) := by
  unfold handleLogin
  rw [if_neg (by push_neg; exact ⟨hu, hp⟩)]
  split
  · rename_i heq
    rw [hlookup] at heq
    exact Option.noConfusion heq
  · rename_i ph ai heq
    rw [hlookup] at heq
    injection heq with h2
    injection h2 with h3 h4
    subst h3
    subst h4
    rw [if_neg (not_not_intro hhash)]

theorem handleLogin_already (hash : String → String) (st : ServerState) (client : Client)
    (username password phash : String) (aid : ℕ)
    (hu : username ≠ "") (hp : password ≠ "")
    (hlookup : alLookup st.users username = some (phash, aid))
    (hhash : phash = hash password)
    (c : Client) (hc : c ∈ st.connections) (hcaid : c.account_id = some aid)
    (hcne : c.connection_id ≠ client.connection_id) :
    handleLogin hash st client username password =
      (st, [Reply.authFailure "Already logged in"]) := by
  rw [handleLogin_eq_of_valid hash st client username password phash aid hu hp hlookup hhash]
  have hany : st.connections.any (fun c =>
      c.account_id == some aid && c.connection_id != client.connection_id) = true := by
    rw [List.any_eq_true]
    refine ⟨c, hc, ?_⟩
    simp [hcaid, hcne]
  rw [if_pos hany]

theorem handleLogin_success (hash : String → String) (st : ServerState) (client : Client)
    (username password phash : String) (aid : ℕ)
    (hu : username ≠ "") (hp : password ≠ "")
    (hlookup : alLookup st.users username = some (phash, aid))
    (hhash : phash = hash password)
    (hfree : ∀ c ∈ st.connections, c.account_id ≠ some aid) :
    handleLogin hash st client username password =
      ((loginSuccess st client.connection_id username aid).2,
       [Reply.authSuccess (loginSuccess st client.connection_id username aid).1 username,
        Reply.fullState]) := by
  rw [handleLogin_eq_of_valid hash st client username password phash aid hu hp hlookup hhash]
  have hany : st.connections.any (fun c =>
      c.account_id == some aid && c.connection_id != client.connection_id) = false := by
    rw [List.any_eq_false]
    intro c hc
    simp [hfree c hc]
  rw [if_neg (by rw [hany]; exact Bool.false_ne_true)]

theorem loginSuccess_users (st : ServerState) (cid username : String) (aid : ℕ) :
    (loginSuccess st cid username aid).2.users = st.users := rfl

theorem loginSuccess_mem_self (st : ServerState) (client : Client) (username : String) (aid : ℕ)
    (hc : client ∈ st.connections) :
    ∃ c' ∈ (loginSuccess st client.connection_id username aid).2.connections,
      c'.account_id = some aid ∧ c'.connection_id = client.connection_id := by
  have h1 : ({ client with state := ConnState.authenticated, account_id := some aid, username := some username } : Client) ∈ (updateClient st client.connection_id (fun c => { c with state := ConnState.authenticated, account_id := some aid, username := some username })).connections :=
    updateClient_mem_self st client.connection_id _ client hc rfl
  have h2 := updateClient_mem_self ((spawnPlayer (updateClient st client.connection_id (fun c => { c with state := ConnState.authenticated, account_id := some aid, username := some username })) 8 8 0).2) client.connection_id (fun c => { c with player_entity := some (loginSuccess st client.connection_id username aid).1, state := ConnState.inGame }) ({ client with state := ConnState.authenticated, account_id := some aid, username := some username }) h1 rfl
  exact ⟨_, h2, rfl, rfl⟩

theorem loginSuccess_mem_other (st : ServerState) (cid username : String) (aid : ℕ)
    (c : Client) (hc : c ∈ (loginSuccess st cid username aid).2.connections)
    (hne : c.connection_id ≠ cid) : c ∈ st.connections := by
  have h2 := updateClient_mem_other ((spawnPlayer (updateClient st cid (fun x => { x with state := ConnState.authenticated, account_id := some aid, username := some username })) 8 8 0).2) cid (fun x => { x with player_entity := some (loginSuccess st cid username aid).1, state := ConnState.inGame }) (fun x => rfl) c hc hne
  exact updateClient_mem_other st cid (fun x => { x with state := ConnState.authenticated, account_id := some aid, username := some username }) (fun x => rfl) c h2 hne

/-- C8: with valid credentials for account `aid` on file, (a) whenever some
other live connection already holds `aid`, a login on a different
connection is answered with the auth-failure "Already logged in" and the
server state is returned unchanged; (b) in the sequential race from a
state where nobody holds `aid`, the first login succeeds (auth-success
with a player entity, then the full state), and the second login for the
same account on the other connection then fails with "Already logged in",
changes nothing, and the losing connection's record - in particular its
absent player entity - is exactly what it was before the race. -/
theorem login_race (hash : String → String) (st : ServerState) (client₁ client₂ : Client)
    (username password phash : String) (aid : ℕ)
    (hu : username ≠ "") (hp : password ≠ "")
    (hlookup : alLookup st.users username = some (phash, aid))
    (hhash : phash = hash password)
    (hne : client₁.connection_id ≠ client₂.connection_id) :
    (∀ c ∈ st.connections, c.account_id = some aid → c.connection_id ≠ client₂.connection_id →
        handleLogin hash st client₂ username password =
          (st, [Reply.authFailure "Already logged in"])) ∧
    ((∀ c ∈ st.connections, c.account_id ≠ some aid) → client₁ ∈ st.connections →
      ∃ pe st₁, handleLogin hash st client₁ username password =
          (st₁, [Reply.authSuccess pe username, Reply.fullState]) ∧
        handleLogin hash st₁ client₂ username password =
          (st₁, [Reply.authFailure "Already logged in"]) ∧
        (∀ c ∈ st₁.connections, c.connection_id = client₂.connection_id →
          c ∈ st.connections)) := by
  constructor
  · intro c hc hcaid hcne
    exact handleLogin_already hash st client₂ username password phash aid hu hp hlookup hhash
      c hc hcaid hcne
  · intro hfree hmem
    refine ⟨(loginSuccess st client₁.connection_id username aid).1,
      (loginSuccess st client₁.connection_id username aid).2,
      handleLogin_success hash st client₁ username password phash aid hu hp hlookup hhash hfree,
      ?_, ?_⟩
    · obtain ⟨c', hc', hcaid', hcid'⟩ := loginSuccess_mem_self st client₁ username aid hmem
      refine handleLogin_already hash _ client₂ username password phash aid hu hp ?_ hhash
        c' hc' hcaid' ?_
      · rw [loginSuccess_users]
        exact hlookup
      · rw [hcid']
        exact hne
    · intro c hc hcid
      refine loginSuccess_mem_other st client₁.connection_id username aid c hc ?_
      rw [hcid]
      exact fun h => hne h.symm

theorem login_race_witness :
    ∃ pe st₁, handleLogin hashC8 stC8 clientC8a "alice" "pw" =
        (st₁, [Reply.authSuccess pe "alice", Reply.fullState]) ∧
      handleLogin hashC8 st₁ clientC8b "alice" "pw" =
        (st₁, [Reply.authFailure "Already logged in"]) ∧
      (∀ c ∈ st₁.connections, c.connection_id = clientC8b.connection_id →
        c ∈ stC8.connections) :=
  (login_race hashC8 stC8 clientC8a clientC8b "alice" "pw" "H" 7
    (by decide) (by decide) rfl rfl (by decide)).2
    (by decide) (by decide)

/-- C9: whenever the requesting client is connected and the raw text of an
incoming message fails to decode as a message envelope, `_handle_message`
replies to that client with an error message carrying the stable code
INVALID_MESSAGE and the decode error, leaves the server state unchanged,
and keeps the connection open. -/
theorem invalid_message_error
    (dispatch : ServerState → Client → NetMessage → ServerState × List Reply × ConnFate)
    (fromJson : String → Except String NetMessage)
    (st : ServerState) (cid raw : String) (client : Client) (e : String)
    (hfind : st.connections.find? (fun c => c.connection_id == cid) = some client)
    (herr : fromJson raw = Except.error e) :
    handleMessage dispatch fromJson st cid raw =
      (st, [Reply.errorMsg "INVALID_MESSAGE" e], ConnFate.stayOpen) := by
  unfold handleMessage
  split
  · rename_i hnone
    rw [hfind] at hnone
    exact Option.noConfusion hnone
  · rename_i cl heq
    rw [hfind] at heq
    injection heq with h
    subst h
    split
    · rename_i e' herr'
      rw [herr] at herr'
      injection herr' with h2
      subst h2
      rfl
    · rename_i m hok
      rw [herr] at hok
      exact Except.noConfusion hok

theorem invalid_message_error_witness :
    handleMessage (fun s _ _ => (s, [], ConnFate.stayOpen)) (fun _ => Except.error "bad")
        stC8 "c1" "oops" =
      (stC8, [Reply.errorMsg "INVALID_MESSAGE" "bad"], ConnFate.stayOpen) :=
  invalid_message_error (fun s _ _ => (s, [], ConnFate.stayOpen)) (fun _ => Except.error "bad")
    stC8 "c1" "oops" clientC8a "bad" rfl rfl

end MindRune
